import Mathlib

/-!
Verification of the Sudoku obfuscation tunnel (github.com/saba-futai/sudoku).

This file shallowly embeds the parts of the Go source that the checked
claims are about:

* the packed 6-bit codec (`pkg/obfs/sudoku`, `PackedConn`);
* the Sudoku stream codec's byte classification (`pkg/obfs/sudoku/conn.go`);
* the server handshake decision logic (`apis` `serverHandshakeCore`,
  `internal/tunnel` `HandshakeAndUpgrade` / `HandshakeAndUpgradeWithTables`);
* multi-table probe selection (`selectTableByProbe`);
* the UDP-over-TCP framing and server loop (`internal/tunnel`).

Machine integers are modelled as `Nat` (with an explicit `% 2 ^ 64` where the
Go code can actually overflow a `uint64`); fallible operations return sum
types; randomness (padding schedules, pool draws) is modelled by explicit
oracle parameters that the theorems quantify over.
-/

/-! ## Byte-level helpers -/

/-- Big-endian value of a byte list (as in Go `binary.BigEndian.Uint64` /
`Uint16` applied to the full list). -/
def beVal (bs : List Nat) : Nat :=
  bs.foldl (fun acc b => acc * 256 + b) 0

/-- Big-endian 8-byte encoding of a `uint64` value, as produced by Go
`binary.BigEndian.PutUint64`. -/
def be64Bytes (v : Nat) : List Nat :=
  [v / 2 ^ 56 % 256, v / 2 ^ 48 % 256, v / 2 ^ 40 % 256, v / 2 ^ 32 % 256,
   v / 2 ^ 24 % 256, v / 2 ^ 16 % 256, v / 2 ^ 8 % 256, v % 256]

/-- Reinterpretation of a `uint64` bit pattern as Go `int64`
(`ts := int64(binary.BigEndian.Uint64(...))`). -/
def toInt64 (v : Nat) : Int :=
  if v < 2 ^ 63 then (v : Int) else (v : Int) - 2 ^ 64

/-- Go helper `abs` from `apis`/`internal/tunnel` (`func abs(x int64) int64`). -/
def goAbs (x : Int) : Int :=
  if x < 0 then -x else x

/-- A byte list is a list of values `< 256`. -/
abbrev ByteList (bs : List Nat) : Prop := ∀ b ∈ bs, b < 256

/-! ## Handshake decision logic

From `serverHandshakeCore` (apis) and `HandshakeAndUpgrade` /
`HandshakeAndUpgradeWithTables` (internal/tunnel): after the AEAD layer has
produced the 16-byte prelude and the 1-byte downlink mode, the server decides
as follows (source lines: part_002 `serverHandshakeCore` 545-571).
-/

/-- Downlink mode tags, from `internal/tunnel`
(`DownlinkModePure byte = 0x01`, `DownlinkModePacked byte = 0x02`) and the
identical `apis` constants `downlinkModePure` / `downlinkModePacked`. -/
def DownlinkModePure : Nat := 0x01

/-- See `DownlinkModePure`. -/
def DownlinkModePacked : Nat := 0x02

/-- The configuration bit that selects the downlink mode
(`EnablePureDownlink` in both `apis.ProtocolConfig` and `config.Config`). -/
structure DownlinkCfg where
  enablePureDownlink : Bool
deriving DecidableEq, Repr

/-- Go `downlinkModeByte` (internal/tunnel) and `downlinkMode` (apis):
`if cfg.EnablePureDownlink { return DownlinkModePure }; return DownlinkModePacked`. -/
def downlinkModeByte (cfg : DownlinkCfg) : Nat :=
  if cfg.enablePureDownlink then DownlinkModePure else DownlinkModePacked

/-- Outcome of the post-decryption part of the server handshake. -/
inductive HsOutcome
  | staleTimestamp
  | modeMismatch
  | success
deriving DecidableEq, Repr

/-- The server decision on the decrypted handshake bytes, from
`serverHandshakeCore` (part_002 lines 545-571): reinterpret the first 8
prelude bytes as big-endian `int64`, reject when `abs(now-ts) > 60`,
then reject when the mode byte differs from `downlinkModeByte cfg`.
`prelude` is the 16-byte decrypted prelude, `modeByte` the decrypted
downlink-mode byte. -/
def serverHandshakeDecision (now : Int) (prelude : List Nat) (modeByte : Nat)
    (cfg : DownlinkCfg) : HsOutcome :=
  let ts : Int := toInt64 (beVal (prelude.take 8))
  if goAbs (now - ts) > 60 then .staleTimestamp
  else if modeByte ≠ downlinkModeByte cfg then .modeMismatch
  else .success

/-- Go client `buildHandshakePayload` (src/apis/client.go lines 87-93):
8 bytes big-endian unix time then the first 8 bytes of `sha256(key)`.
The SHA-256 digest itself comes from the Go standard library and is passed
in abstractly as `keyHash`. -/
def buildHandshakePayload (nowUnix : Nat) (keyHash : List Nat) : List Nat :=
  be64Bytes nowUnix ++ keyHash.take 8

/-! ## HTTP-mask auto-detection (server side)

Both server variants peek 4 bytes and consume the HTTP preamble only when
their own `DisableHTTPMask` flag is false, but they differ in the detector:
`internal/tunnel/server.go` `HandshakeAndUpgrade` lines 115-143 compares the
peek against the literal string `POST`, while the `apis` `serverHandshakeCore`
(part_002 lines 493-497) calls `httpmask.LooksLikeHTTPRequestStart`, whose
body is not under src/ and is modelled from spec section 4.4 (the peek forms
the start of an HTTP request line: `POST` / `GET` / `PUT` / `HEAD`).
-/

/-- The 4 ASCII bytes of the string `POST`. -/
def postBytes : List Nat := [80, 79, 83, 84]

/-- From server.go line 121: `len(peekBytes) == 4 && string(peekBytes) == "POST"`. -/
def looksLikeHTTPPost (peek : List Nat) : Bool :=
  peek.length == 4 && peek == postBytes

/-- The 4-byte starts of the request lines named by spec section 4.4:
`POST`, `GET `, `PUT `, `HEAD`. -/
def httpRequestStarts : List (List Nat) :=
  [[80, 79, 83, 84], [71, 69, 84, 32], [80, 85, 84, 32], [72, 69, 65, 68]]

/-- Modelled from the spec: `httpmask.LooksLikeHTTPRequestStart` is not under
src/ (only its callers are).  Per spec section 4.4 the server consumes when
the 4 peeked bytes "form the start of an HTTP request line
(`POST` / `GET` / `PUT` / `HEAD` / ...)". -/
def looksLikeHTTPRequestStart (peek : List Nat) : Bool :=
  peek.length == 4 && httpRequestStarts.contains peek

/-- From server.go lines 119-124: `shouldConsumeMask` is set only under
`!cfg.DisableHTTPMask`, and only for a `POST` peek. -/
def serverShouldConsumeMask (disableHTTPMask : Bool) (peek : List Nat) : Bool :=
  !disableHTTPMask && looksLikeHTTPPost peek

/-- From part_002 lines 493-497: the `apis` variant's `shouldConsumeMask` is
set only under `!cfg.DisableHTTPMask`, for any request-line start. -/
def apisShouldConsumeMask (disableHTTPMask : Bool) (peek : List Nat) : Bool :=
  !disableHTTPMask && looksLikeHTTPRequestStart peek

/-- Index (counted from the start) just past the first occurrence of
CRLFCRLF, or `none`. Helper for `consumeHeaderSpec`. -/
def crlfcrlfEnd : List Nat → Option Nat
  | [] => none
  | b :: rest =>
    if b = 13 ∧ rest.take 3 = [10, 13, 10] then some 4
    else (crlfcrlfEnd rest).map (· + 1)

/-- Modelled from the spec: `httpmask.ConsumeHeader` is not under src/ (only
its callers and tests are). Per spec section 4.4 the server consumes "up to
and including the first CRLFCRLF"; the result is `(consumed, remaining)`,
or `none` when no CRLFCRLF terminator is found. -/
def consumeHeaderSpec (input : List Nat) : Option (List Nat × List Nat) :=
  (crlfcrlfEnd input).map fun n => (input.take n, input.drop n)

/-- The server-side mask phase: gate from server.go lines 119-143, header
consumption modelled from the spec. Returns `(consumed preamble, remaining
stream)`; a malformed preamble (no terminator) fails. -/
def serverMaskPhase (disableHTTPMask : Bool) (input : List Nat) :
    Option (List Nat × List Nat) :=
  if serverShouldConsumeMask disableHTTPMask (input.take 4) then
    consumeHeaderSpec input
  else
    some ([], input)

/-- The `apis` server-side mask phase: gate from part_002 lines 493-511,
header consumption modelled from the spec.  Returns `(consumed preamble,
remaining stream)`; a malformed preamble (no terminator) fails. -/
def apisMaskPhase (disableHTTPMask : Bool) (input : List Nat) :
    Option (List Nat × List Nat) :=
  if apisShouldConsumeMask disableHTTPMask (input.take 4) then
    consumeHeaderSpec input
  else
    some ([], input)

/-! ## Fallback recorder byte accounting

From `pkg/obfs/sudoku/conn.go`: while `recording`, every chunk the codec
consumes from its inner reader is appended to the recorder
(`Conn.Read` lines 147-154); `StopRecording` (lines 62-67) drops the
recorder; `GetBufferedAndRecorded` (lines 69-91) returns the recorded bytes
followed by the bufio lookahead that was consumed from the wire but not yet
decoded.
-/

/-- `Conn.Read` recording step: append the consumed chunk while the recorder
is live (`sc.recorder.Write(chunk)`); after `StopRecording` the recorder is
`nil` and nothing is kept. -/
def recordChunk (recorder : Option (List Nat)) (chunk : List Nat) : Option (List Nat) :=
  match recorder with
  | some r => some (r ++ chunk)
  | none => none

/-- `Conn.GetBufferedAndRecorded`: recorded bytes (empty once the recorder is
released) followed by the still-buffered lookahead. -/
def getBufferedAndRecorded (recorder : Option (List Nat)) (buffered : List Nat) :
    List Nat :=
  recorder.getD [] ++ buffered

/-- Byte accounting of `serverHandshakeCore` (part_002 lines 527-571),
abstracted over the raw chunks each decrypt phase consumes from the codec's
inner reader.  The codec is built with `record = true`; the prelude read
consumes `preludeChunks`; on a fresh timestamp the code calls
`sConn.StopRecording()` (line 558) and only then reads the mode byte,
consuming `modeChunks`.  The result is the `ReadData` attached to the
`HandshakeError` handed to the suspicious-input dispatcher (`none` when the
handshake succeeds).  `buffered` is the codec's bufio lookahead at failure
time. -/
def serverHandshakeReadData (preludeChunks modeChunks : List (List Nat))
    (buffered : List Nat) (now ts : Int) (modeByte : Nat) (cfg : DownlinkCfg) :
    Option (List Nat) :=
  let rec1 := preludeChunks.foldl recordChunk (some [])
  if goAbs (now - ts) > 60 then
    some (getBufferedAndRecorded rec1 buffered)
  else
    let rec3 := modeChunks.foldl recordChunk none
    if modeByte ≠ downlinkModeByte cfg then
      some (getBufferedAndRecorded rec3 buffered)
    else
      none

/-! ## Multi-table probe selection

From `selectTableByProbe` (part_002 lines 367-426, identically part_007 lines
189-248).  `probeHandshakeBytes` (decoding prelude+mode over a read-only
replay through the full codec+AEAD stack) is abstracted as a function from
candidate table and probe bytes to an outcome; the reader is abstracted as
the initially-buffered bytes plus the successive results of `r.Read(tmp)`
(chunk bytes plus whether that read returned an error).
-/

/-- Classification of a `probeHandshakeBytes` error, matching the
`errors.Is(err, io.EOF) || errors.Is(err, io.ErrUnexpectedEOF)` test. -/
inductive ProbeOutcome
  | ok
  | shortRead
  | otherErr
deriving DecidableEq, Repr

/-- One pass over the candidate list (part_002 lines 395-409): the first
candidate with `err == nil` is selected; otherwise `needMore` records whether
any candidate failed with EOF / unexpected EOF. -/
def tryTables {α : Type} (probeFn : α → List Nat → ProbeOutcome) (probe : List Nat) :
    List α → Option α × Bool
  | [] => (none, false)
  | t :: ts =>
    match probeFn t probe with
    | .ok => (some t, false)
    | .shortRead =>
      let r := tryTables probeFn probe ts
      (r.1, true)
    | .otherErr => tryTables probeFn probe ts

/-- Result of `selectTableByProbe`. -/
inductive SelectResult (α : Type)
  | noTables
  | tooManyTables
  | selected (t : α) (preRead : List Nat)
  | selectionFailed (probe : List Nat)
  | probeOverflow (probe : List Nat)
  | readFailed (probe : List Nat)
deriving DecidableEq, Repr

/-- What one iteration of the `for` loop in `selectTableByProbe` decides
before it reaches `r.Read(tmp)` (part_002 lines 385-416): the single-table
fast return, the candidate pass, the `!needMore` failure and the 64-KiB
overflow check; `needChunk` means the loop falls through to the next read. -/
inductive RoundOutcome (α : Type)
  | done (r : SelectResult α)
  | needChunk
deriving DecidableEq

/-- One iteration of the retry loop up to the read (part_002 lines 385-416). -/
def selectRound {α : Type} (probeFn : α → List Nat → ProbeOutcome) (tables : List α)
    (probe : List Nat) : RoundOutcome α :=
  match tables with
  | [t] => .done (.selected t probe)
  | _ =>
    match tryTables probeFn probe tables with
    | (some t, _) => .done (.selected t probe)
    | (none, needMore) =>
      if ¬ needMore then .done (.selectionFailed probe)
      else if 64 * 1024 ≤ probe.length then .done (.probeOverflow probe)
      else .needChunk

/-- The retry loop of `selectTableByProbe` (part_002 lines 385-425).  Each
element of `reads` is one `r.Read(tmp)` result: the bytes obtained (at most
4096, the size of `tmp`) and whether the read also returned an error; an
exhausted `reads` stands for a read that returns an error with no data. -/
def selectLoop {α : Type} (probeFn : α → List Nat → ProbeOutcome) (tables : List α) :
    List Nat → List (List Nat × Bool) → SelectResult α
  | probe, [] =>
    match selectRound probeFn tables probe with
    | .done r => r
    | .needChunk => .readFailed probe
  | probe, (d, e) :: rest =>
    match selectRound probeFn tables probe with
    | .done r => r
    | .needChunk =>
      if e then .readFailed (probe ++ d)
      else selectLoop probeFn tables (probe ++ d) rest

/-- `selectTableByProbe` (part_002 lines 367-426): candidate-count guards,
initial `drainBuffered`, then the retry loop.  (The post-success
`drainBuffered` tail is empty here: the 4096-byte reads into `tmp` bypass the
4096-byte bufio buffer, so nothing is ever left buffered once the initial
drain has run.) -/
def selectTableByProbe {α : Type} (probeFn : α → List Nat → ProbeOutcome)
    (tables : List α) (buffered : List Nat) (reads : List (List Nat × Bool)) :
    SelectResult α :=
  if tables.length = 0 then .noTables
  else if 255 < tables.length then .tooManyTables
  else selectLoop probeFn tables buffered reads

/-! ## UDP-over-TCP framing and server loop

From `internal/tunnel` (part_008 lines 96-242).
-/

/-- `maxUoTPayload = 64 * 1024`. -/
def maxUoTPayload : Nat := 64 * 1024

/-- Length validation of `ReadUoTDatagram` (part_008 lines 145-159): parse the
4-byte header big-endian, reject `addrLen <= 0 || addrLen > maxUoTPayload`
and `payloadLen > maxUoTPayload` (`payloadLen < 0` is impossible for a
`uint16` widened to `int`).  Returns the accepted `(addrLen, payloadLen)`. -/
def readUoTHeader (header : List Nat) : Option (Nat × Nat) :=
  match header with
  | [h0, h1, h2, h3] =>
    let addrLen := 256 * h0 + h1
    let payloadLen := 256 * h2 + h3
    if addrLen = 0 ∨ maxUoTPayload < addrLen then none
    else if maxUoTPayload < payloadLen then none
    else some (addrLen, payloadLen)
  | _ => none

/-- One event seen by the tunnel-to-UDP goroutine of `HandleUoTServer`
(part_008 lines 222-239): either `ReadUoTDatagram` fails, or it yields a
frame whose destination resolves (or not) and whose `pConn.WriteTo`
succeeds (or not). -/
inductive UoTTunnelEvent
  | readErr
  | frame (resolveOk : Bool) (writeOk : Bool)
deriving DecidableEq, Repr

/-- What the loop does with one event: `ReadUoTDatagram` error → `closeAll`
(closes the tunnel conn *and* the UDP socket); unresolvable destination →
`continue` (skip the frame, session lives); `WriteTo` error → `closeAll`;
successful send → keep looping. -/
inductive UoTStep
  | delivered
  | skipped
  | closedBoth
deriving DecidableEq, Repr

/-- Step function of the tunnel-to-UDP loop, read off part_008 lines 223-238. -/
def uotTunnelStep : UoTTunnelEvent → UoTStep
  | .readErr => .closedBoth
  | .frame false _ => .skipped
  | .frame true false => .closedBoth
  | .frame true true => .delivered

/-- Session trace of the tunnel-to-UDP loop on a list of events: returns the
per-event steps up to and including the first `closedBoth` (after `closeAll`
both sockets are closed and the loop exits). -/
def uotTunnelTrace : List UoTTunnelEvent → List UoTStep
  | [] => []
  | ev :: rest =>
    match uotTunnelStep ev with
    | .closedBoth => [.closedBoth]
    | s => s :: uotTunnelTrace rest

/-- One event seen by the UDP-to-tunnel goroutine (part_008 lines 207-220):
`pConn.ReadFrom` fails, or a datagram arrives and `WriteUoTDatagram` succeeds
or fails.  Both failure cases call `closeAll`. -/
inductive UoTUdpEvent
  | readFromErr
  | datagram (writeOk : Bool)
deriving DecidableEq, Repr

/-- Step function of the UDP-to-tunnel loop (part_008 lines 209-218). -/
def uotUdpStep : UoTUdpEvent → UoTStep
  | .readFromErr => .closedBoth
  | .datagram false => .closedBoth
  | .datagram true => .delivered

/-! ## Packed 6-bit codec (part_006, `PackedConn`)

Bit-accumulator values (`bitBuf`, `readBitBuf`) are Go `uint64`; the writer's
accumulator provably never exceeds 14 bits, the reader's genuinely wraps, so
only the reader step carries an explicit `% 2 ^ 64`.  Arithmetic on byte
values stays below 2^14 throughout, so `<< k` is `* 2 ^ k`, `>> k` is
`/ 2 ^ k`, `& (2^k - 1)` is `% 2 ^ k`, and `x | y` with `y` below the shifted
unit is `+`; each definition cites the Go expression it translates.
-/

/-- `encodeGroup` (part_006 lines 365-378): ASCII `0x40 | group`, entropy
`((group & 0x30) << 1) | (group & 0x0F)`. -/
def encodeGroup (isASCII : Bool) (group : Nat) : Nat :=
  if isASCII then 0x40 ||| group
  else ((group &&& 0x30) <<< 1) ||| (group &&& 0x0F)

/-- The flush marker `padMarker` chosen in `NewPackedConn` (lines 75-83):
`0x3F` in ASCII mode, `0x80` in entropy mode. -/
def padMarker (isASCII : Bool) : Nat :=
  if isASCII then 0x3F else 0x80

/-- Byte classification shared by `Conn.Read` (conn.go lines 156-172) and the
inlined check in `PackedConn.Read` (part_006 lines 286-293): in ASCII mode a
byte is padding iff `(b & 0x40) == 0`, in entropy mode iff `(b & 0x90) != 0`. -/
def isPaddingByte (isASCII : Bool) (b : Nat) : Bool :=
  if isASCII then b &&& 0x40 == 0 else !(b &&& 0x90 == 0)

/-- `decodeGroup` inlined in `PackedConn.Read` (part_006 lines 303-310):
ASCII `b & 0x3F`, entropy `((b >> 1) & 0x30) | (b & 0x0F)`. -/
def decodeGroupByte (isASCII : Bool) (b : Nat) : Nat :=
  if isASCII then b &&& 0x3F else ((b >>> 1) &&& 0x30) ||| (b &&& 0x0F)

/-- Writer bit-accumulator (`PackedConn.bitBuf` / `bitCount`). -/
structure PackedWState where
  bitBuf : Nat
  bitCount : Nat
deriving DecidableEq, Repr

/-- Reader bit-accumulator (`PackedConn.readBitBuf` / `readBits`). -/
structure PackedRState where
  readBitBuf : Nat
  readBits : Nat
deriving DecidableEq, Repr

/-- The writer's randomness, made explicit: `bytes i` is the i-th
`getPaddingByte()` pool draw, `resets i` the i-th `rng.Intn(padInterval)+1`
countdown reset. -/
structure PadOracle where
  bytes : Nat → Nat
  resets : Nat → Nat

/-- Padding countdown state (`PackedConn.padCountdown`, a Go `int`) plus the
oracle cursor. -/
structure PadState where
  countdown : Int
  idx : Nat
deriving DecidableEq, Repr

/-- `NewPackedConn` draws pool bytes from `table.PaddingPool` with the flush
marker filtered out (part_006 lines 75-92); spec section 3 guarantees the
pool lies in the padding byte-class.  A pad oracle is valid when its draws
satisfy both facts. -/
def PadOracleOK (isASCII : Bool) (o : PadOracle) : Prop :=
  ∀ i, isPaddingByte isASCII (o.bytes i) = true ∧ o.bytes i ≠ padMarker isASCII

/-- The slow-path padding check (part_006 lines 137-140, 198-201, 207-210):
`if pc.padCountdown--; pc.padCountdown <= 0 { emit pool byte; reset }`. -/
def padTick (o : PadOracle) (p : PadState) : List Nat × PadState :=
  let cd := p.countdown - 1
  if cd ≤ 0 then ([o.bytes p.idx], ⟨(o.resets p.idx : Int), p.idx + 1⟩)
  else ([], ⟨cd, p.idx⟩)

/-- The fast-path padding check (part_006 lines 150-157): test `<= 0` before
the block, then `padCountdown -= 4` for the four output bytes. -/
def padCheckBlock (o : PadOracle) (p : PadState) : List Nat × PadState :=
  let s : List Nat × PadState :=
    if p.countdown ≤ 0 then ([o.bytes p.idx], (⟨(o.resets p.idx : Int), p.idx + 1⟩ : PadState))
    else ([], p)
  (s.1, ⟨s.2.countdown - 4, s.2.idx⟩)

/-- The `for pc.bitCount >= 6` drain loop (part_006 lines 125-143 = 189-204):
`bitCount -= 6; group := byte(bitBuf >> bitCount); bitBuf &= (1<<bitCount)-1`
(with `bitBuf = 0` at `bitCount == 0`), pad tick, then
`append(out, pc.encodeGroup(group & 0x3F))`. -/
def emitGroupsLoop (isASCII : Bool) (o : PadOracle) (w : PackedWState) (p : PadState) :
    List Nat × PackedWState × PadState :=
  if h : 6 ≤ w.bitCount then
    let bc := w.bitCount - 6
    let group := w.bitBuf / 2 ^ bc % 256
    let buf := w.bitBuf % 2 ^ bc
    let pt := padTick o p
    let r := emitGroupsLoop isASCII o ⟨buf, bc⟩ pt.2
    (pt.1 ++ encodeGroup isASCII (group % 64) :: r.1, r.2.1, r.2.2)
  else ([], w, p)
  termination_by w.bitCount
  decreasing_by simp_wf; omega

/-- Pushing one input byte through the slow path (part_006 lines 121-124 =
186-188): `bitBuf = (bitBuf << 8) | uint64(b); bitCount += 8`, then drain. -/
def pushByteSlow (isASCII : Bool) (o : PadOracle) (w : PackedWState) (p : PadState)
    (b : Nat) : List Nat × PackedWState × PadState :=
  emitGroupsLoop isASCII o ⟨(w.bitBuf * 256 + b) % 2 ^ 64, w.bitCount + 8⟩ p

/-- The head-alignment loop of `Write` (part_006 lines 116-143):
`for pc.bitCount > 0 && i < n` process one byte through the slow path.
Returns the output, the final states and the unconsumed remainder of `input`. -/
def writeHead (isASCII : Bool) (o : PadOracle) (w : PackedWState) (p : PadState) :
    List Nat → List Nat × PackedWState × PadState × List Nat
  | [] => ([], w, p, [])
  | b :: rest =>
    if w.bitCount = 0 then ([], w, p, b :: rest)
    else
      let s := pushByteSlow isASCII o w p b
      let r := writeHead isASCII o s.2.1 s.2.2 rest
      (s.1 ++ r.1, r.2.1, r.2.2.1, r.2.2.2)

/-- One fast-path block (part_006 lines 149-181): the four 6-bit groups of a
3-byte window, preceded by the block padding check.  The Go bit expressions
`(b1 >> 2) & 0x3F`, `((b1 & 0x03) << 4) | ((b2 >> 4) & 0x0F)`,
`((b2 & 0x0F) << 2) | ((b3 >> 6) & 0x03)`, `b3 & 0x3F` are written with the
ORs of disjoint ranges as sums. -/
def fastBlock (isASCII : Bool) (o : PadOracle) (p : PadState) (b1 b2 b3 : Nat) :
    List Nat × PadState :=
  let s := padCheckBlock o p
  let g1 := b1 / 4 % 64
  let g2 := b1 % 4 * 16 + b2 / 16 % 16
  let g3 := b2 % 16 * 4 + b3 / 64 % 4
  let g4 := b3 % 64
  (s.1 ++ [encodeGroup isASCII g1, encodeGroup isASCII g2,
           encodeGroup isASCII g3, encodeGroup isASCII g4], s.2)

/-- The fast-path loop (`for i+2 < n`, part_006 lines 145-181). -/
def writeFast (isASCII : Bool) (o : PadOracle) (p : PadState) :
    List Nat → List Nat × PadState × List Nat
  | b1 :: b2 :: b3 :: rest =>
    let s := fastBlock isASCII o p b1 b2 b3
    let r := writeFast isASCII o s.2 rest
    (s.1 ++ r.1, r.2.1, r.2.2)
  | rest => ([], p, rest)

/-- The tail loop (`for ; i < n; i++`, part_006 lines 183-204): remaining
bytes through the slow path. -/
def writeTail (isASCII : Bool) (o : PadOracle) (w : PackedWState) (p : PadState) :
    List Nat → List Nat × PackedWState × PadState
  | [] => ([], w, p)
  | b :: rest =>
    let s := pushByteSlow isASCII o w p b
    let r := writeTail isASCII o s.2.1 s.2.2 rest
    (s.1 ++ r.1, r.2.1, r.2.2)

/-- The end-of-`Write` flush of sub-6-bit residue (part_006 lines 206-216):
pad tick, `group := byte(pc.bitBuf << (6 - pc.bitCount))`, clear the
accumulator, emit `encodeGroup(group & 0x3F)` and the flush marker. -/
def writeFinal (isASCII : Bool) (o : PadOracle) (w : PackedWState) (p : PadState) :
    List Nat × PackedWState × PadState :=
  if 0 < w.bitCount then
    let pt := padTick o p
    let group := w.bitBuf * 2 ^ (6 - w.bitCount) % 256
    (pt.1 ++ [encodeGroup isASCII (group % 64), padMarker isASCII], ⟨0, 0⟩, pt.2)
  else ([], w, p)

/-- `PackedConn.Write` (part_006 lines 97-227): early-out on empty input,
head alignment, fast blocks, tail bytes, residue flush. -/
def packedWrite (isASCII : Bool) (o : PadOracle) (w : PackedWState) (p : PadState)
    (input : List Nat) : List Nat × PackedWState × PadState :=
  match input with
  | [] => ([], w, p)
  | _ =>
    let h := writeHead isASCII o w p input
    let f := writeFast isASCII o h.2.2.1 h.2.2.2
    let t := writeTail isASCII o h.2.1 f.2.1 f.2.2
    let z := writeFinal isASCII o t.2.1 t.2.2
    (h.1 ++ f.1 ++ t.1 ++ z.1, z.2.1, z.2.2)

/-- `PackedConn.Flush` (part_006 lines 230-257): emit any residue as a
left-zero-padded group plus the marker (without a pad tick), then possibly
one trailing pool byte when `padCountdown <= 5`. -/
def packedFlush (isASCII : Bool) (o : PadOracle) (w : PackedWState) (p : PadState) :
    List Nat × PackedWState × PadState :=
  let s1 : List Nat × PackedWState :=
    if 0 < w.bitCount then
      let group := w.bitBuf * 2 ^ (6 - w.bitCount) % 256
      ([encodeGroup isASCII (group % 64), padMarker isASCII], (⟨0, 0⟩ : PackedWState))
    else ([], w)
  let s2 : List Nat × PadState :=
    if p.countdown ≤ 5 then ([o.bytes p.idx], (⟨(o.resets p.idx : Int), p.idx + 1⟩ : PadState))
    else ([], p)
  (s1.1 ++ s2.1, s1.2, s2.2)

/-- A sequence of `Write` calls (the connection starts from the zero-valued
accumulator of `NewPackedConn`). -/
def packedWriteAll (isASCII : Bool) (o : PadOracle) (w : PackedWState) (p : PadState) :
    List (List Nat) → List Nat × PackedWState × PadState
  | [] => ([], w, p)
  | x :: xs =>
    let s := packedWrite isASCII o w p x
    let r := packedWriteAll isASCII o s.2.1 s.2.2 xs
    (s.1 ++ r.1, r.2.1, r.2.2)

/-- One byte of `PackedConn.Read`'s decode loop (part_006 lines 286-323):
padding bytes are skipped, the flush marker clears the accumulator, hint
bytes contribute 6 bits (`rBuf = (rBuf << 6) | group`, a `uint64`, hence the
`% 2 ^ 64`), and a full byte is extracted as `byte(rBuf >> rBits)` once
`rBits >= 8`. -/
def packedReadStep (isASCII : Bool) (st : PackedRState) (b : Nat) :
    List Nat × PackedRState :=
  if isPaddingByte isASCII b then
    if b = padMarker isASCII then ([], ⟨0, 0⟩) else ([], st)
  else
    let group := decodeGroupByte isASCII b
    let rBuf := (st.readBitBuf * 64 + group) % 2 ^ 64
    let rBits := st.readBits + 6
    if 8 ≤ rBits then
      ([rBuf / 2 ^ (rBits - 8) % 256], ⟨rBuf, rBits - 8⟩)
    else
      ([], ⟨rBuf, rBits⟩)

/-- The reader folded over a byte list (chunking by the bufio reader does not
affect the per-byte fold). -/
def packedReadList (isASCII : Bool) (st : PackedRState) :
    List Nat → List Nat × PackedRState
  | [] => ([], st)
  | b :: rest =>
    let s := packedReadStep isASCII st b
    let r := packedReadList isASCII s.2 rest
    (s.1 ++ r.1, r.2)

/-! ### Pad-erased core of the writer

Padding bytes only interleave with the data-carrying groups; the following
`...Core` functions are the writer phases with the pad emissions removed.
They are related to the Go functions by `erasePads` below and are the
vehicle for the round-trip proof.
-/

/-- Bytes that survive erasure: everything except non-marker padding. -/
def keepByte (isASCII : Bool) (b : Nat) : Bool :=
  !(isPaddingByte isASCII b) || (b == padMarker isASCII)

/-- Drop the (non-marker) padding bytes of a wire segment. -/
def erasePads (isASCII : Bool) (out : List Nat) : List Nat :=
  out.filter (keepByte isASCII)

/-- `emitGroupsLoop` without pad emissions. -/
def emitGroupsLoopCore (isASCII : Bool) (w : PackedWState) :
    List Nat × PackedWState :=
  if h : 6 ≤ w.bitCount then
    let bc := w.bitCount - 6
    let group := w.bitBuf / 2 ^ bc % 256
    let buf := w.bitBuf % 2 ^ bc
    let r := emitGroupsLoopCore isASCII ⟨buf, bc⟩
    (encodeGroup isASCII (group % 64) :: r.1, r.2)
  else ([], w)
  termination_by w.bitCount
  decreasing_by simp_wf; omega

/-- `pushByteSlow` without pad emissions. -/
def pushByteCore (isASCII : Bool) (w : PackedWState) (b : Nat) :
    List Nat × PackedWState :=
  emitGroupsLoopCore isASCII ⟨(w.bitBuf * 256 + b) % 2 ^ 64, w.bitCount + 8⟩

/-- The whole byte-consuming part of `Write` without pads is a plain fold of
`pushByteCore` (head, fast and tail paths all emit the same groups). -/
def slowCore (isASCII : Bool) (w : PackedWState) : List Nat → List Nat × PackedWState
  | [] => ([], w)
  | b :: rest =>
    let s := pushByteCore isASCII w b
    let r := slowCore isASCII s.2 rest
    (s.1 ++ r.1, r.2)

/-- `writeFinal` without pad emissions. -/
def writeFinalCore (isASCII : Bool) (w : PackedWState) : List Nat × PackedWState :=
  if 0 < w.bitCount then
    let group := w.bitBuf * 2 ^ (6 - w.bitCount) % 256
    ([encodeGroup isASCII (group % 64), padMarker isASCII], ⟨0, 0⟩)
  else ([], w)

/-! ## Sudoku stream codec table data (C1 table builder is not under src/)

Only the interface facts of `sudoku.Table` that the present claims use are
modelled: the mode flag, the padding pool and the encode table's hint
4-tuples.
-/

/-- Bytes in flight between writer and reader. -/
def pendingList (c q : Nat) : List Nat :=
  if c = 0 then [] else [q]

/-- The writer's `bitCount` after consuming `n` further bytes from count `c`. -/
def cAfter (c n : Nat) : Nat :=
  (c / 2 + n) % 3 * 2

/-- The coupling between the writer and reader accumulators: the pending
byte `q` is held as `c` low bits writer-side and `8 - c` high bits
reader-side (only the low `readBits` bits of `readBitBuf` are meaningful). -/
def WRel (q c : Nat) (w : PackedWState) (st : PackedRState) : Prop :=
  (c = 0 ∨ c = 2 ∨ c = 4) ∧ q < 256 ∧ (c = 0 → q = 0) ∧
  w.bitBuf = q % 2 ^ c ∧ w.bitCount = c ∧
  st.readBits = (8 - c) % 8 ∧
  st.readBitBuf % 2 ^ ((8 - c) % 8) = q / 2 ^ c

theorem beVal_foldl_lt (bs : List Nat) :
    ∀ acc, (∀ b ∈ bs, b < 256) →
      List.foldl (fun a b => a * 256 + b) acc bs < (acc + 1) * 256 ^ bs.length := by
  induction bs with
  | nil => intro acc _; simpa using Nat.lt_succ_self acc
  | cons b bs ih =>
    intro acc h
    have hb : b < 256 := h b (by simp)
    have := ih (acc * 256 + b) (fun x hx => h x (by simp [hx]))
    calc List.foldl (fun a b => a * 256 + b) acc (b :: bs)
        = List.foldl (fun a b => a * 256 + b) (acc * 256 + b) bs := by simp
      _ < (acc * 256 + b + 1) * 256 ^ bs.length := this
      _ ≤ ((acc + 1) * 256) * 256 ^ bs.length := by nlinarith
      _ = (acc + 1) * 256 ^ (b :: bs).length := by ring_nf; simp [List.length_cons]; ring

theorem beVal_lt (bs : List Nat) (h : ByteList bs) : beVal bs < 256 ^ bs.length := by
  simpa using beVal_foldl_lt bs 0 h

theorem goAbs_eq_abs (x : Int) : goAbs x = |x| := by
  unfold goAbs
  rcases lt_or_le x 0 with h | h
  · simp [h, abs_of_neg h]
  · simp [not_lt.mpr h, abs_of_nonneg h]

theorem byteList_take (bs : List Nat) (n : Nat) (h : ByteList bs) :
    ByteList (bs.take n) :=
  fun b hb => h b (List.mem_of_mem_take hb)

theorem serverHandshakeDecision_eq (now : Int) (prelude : List Nat) (modeByte : Nat)
    (cfg : DownlinkCfg) :
    serverHandshakeDecision now prelude modeByte cfg =
      if 60 < goAbs (now - toInt64 (beVal (prelude.take 8))) then .staleTimestamp
      else if modeByte ≠ downlinkModeByte cfg then .modeMismatch
      else .success := rfl

/-- C3: the server rejects the handshake as stale exactly when the big-endian
unsigned integer in prelude bytes `[0..8)` differs from the server's unix
time by more than 60 seconds, and otherwise proceeds to the downlink-mode
check.  (The Go code reinterprets the 8 bytes as `int64`; for any real unix
time `60 < now < 2^63 - 61` the signed and unsigned readings agree on the
accept/reject decision.) -/
theorem sudoku_C3 (now : Int) (prelude : List Nat) (modeByte : Nat)
    (cfg : DownlinkCfg) (hlen : 8 ≤ prelude.length) (hbytes : ByteList prelude)
    (hlo : 60 < now) (hhi : now < 2 ^ 63 - 61) :
    (serverHandshakeDecision now prelude modeByte cfg = .staleTimestamp ↔
      60 < |now - (beVal (prelude.take 8) : Int)|) ∧
    (|now - (beVal (prelude.take 8) : Int)| ≤ 60 →
      serverHandshakeDecision now prelude modeByte cfg =
        (if modeByte ≠ downlinkModeByte cfg then .modeMismatch else .success)) := by
  have hlen8 : (prelude.take 8).length = 8 := by
    simp [List.length_take]; omega
  have hu : beVal (prelude.take 8) < 2 ^ 64 := by
    have := beVal_lt (prelude.take 8) (byteList_take prelude 8 hbytes)
    rw [hlen8] at this
    calc beVal (prelude.take 8) < 256 ^ 8 := this
      _ = 2 ^ 64 := by norm_num
  set u : Nat := beVal (prelude.take 8) with hudef
  have key : (60 < goAbs (now - toInt64 u)) ↔ (60 < |now - (u : Int)|) := by
    unfold toInt64
    by_cases hc : u < 2 ^ 63
    · rw [if_pos hc, goAbs_eq_abs]
    · rw [if_neg hc]
      push_neg at hc
      have h1 : (2 ^ 63 : Int) ≤ (u : Int) := by exact_mod_cast hc
      have h2 : (u : Int) < 2 ^ 64 := by exact_mod_cast hu
      constructor
      · intro _
        have : 60 < (u : Int) - now := by
          have : (2 : Int) ^ 63 = 2 ^ 63 := rfl
          omega
        calc (60 : Int) < (u : Int) - now := this
          _ ≤ |now - (u : Int)| := by
            rw [abs_sub_comm]
            exact le_abs_self _
      · intro _
        have habs : goAbs (now - ((u : Int) - 2 ^ 64)) = now - ((u : Int) - 2 ^ 64) := by
          rw [goAbs_eq_abs, abs_of_nonneg]
          omega
        rw [habs]
        omega
  rw [serverHandshakeDecision_eq, ← hudef]
  constructor
  · by_cases hst : 60 < goAbs (now - toInt64 u)
    · rw [if_pos hst]
      exact iff_of_true rfl (key.mp hst)
    · rw [if_neg hst]
      constructor
      · intro hcontr
        by_cases hm : modeByte ≠ downlinkModeByte cfg
        · rw [if_pos hm] at hcontr; exact absurd hcontr (by simp)
        · rw [if_neg hm] at hcontr; exact absurd hcontr (by simp)
      · intro habs
        exact absurd (key.mpr habs) hst
  · intro hsmall
    have hnot : ¬ 60 < goAbs (now - toInt64 u) :=
      fun hc => absurd (key.mp hc) (not_lt.mpr hsmall)
    rw [if_neg hnot]

/-- Witness for `sudoku_C3`: a prelude 30 seconds in the future of a concrete
unix time passes the freshness check and, with a matching pure-mode byte, the
handshake succeeds. -/
theorem sudoku_C3_witness :
    serverHandshakeDecision 1700000000
      (be64Bytes 1700000030 ++ [0, 0, 0, 0, 0, 0, 0, 0]) 1 ⟨true⟩ = .success := by
  have h := sudoku_C3 1700000000 (be64Bytes 1700000030 ++ [0, 0, 0, 0, 0, 0, 0, 0])
    1 ⟨true⟩ (by decide) (by decide) (by decide) (by decide)
  exact (h.2 (by decide)).trans (by decide)

theorem crlfcrlfEnd_spec (l : List Nat) :
    ∀ n, crlfcrlfEnd l = some n →
      4 ≤ n ∧ n ≤ l.length ∧ l.take n = l.take (n - 4) ++ [13, 10, 13, 10] := by
  induction l with
  | nil => intro n h; simp [crlfcrlfEnd] at h
  | cons b rest ih =>
    intro n h
    rw [crlfcrlfEnd] at h
    by_cases hc : b = 13 ∧ rest.take 3 = [10, 13, 10]
    · rw [if_pos hc] at h
      have hn : n = 4 := by simpa using h.symm
      subst hn
      have h3 : 3 ≤ rest.length := by
        have := congrArg List.length hc.2
        simp [List.length_take] at this
        omega
      refine ⟨le_refl 4, by simp; omega, ?_⟩
      have : rest.take 3 = [10, 13, 10] := hc.2
      simp [List.take_cons, hc.1, this]
    · rw [if_neg hc] at h
      cases hm : crlfcrlfEnd rest with
      | none => rw [hm] at h; simp at h
      | some m =>
        rw [hm] at h
        simp at h
        obtain ⟨h4, hlen, htake⟩ := ih m hm
        have hn : n = m + 1 := by omega
        subst hn
        refine ⟨by omega, by simp; omega, ?_⟩
        have hsub : m + 1 - 4 = (m - 4) + 1 := by omega
        rw [hsub]
        simp [List.take_cons, htake]

/-- C4 counterexample: with the server's own `DisableHTTPMask = true` and an
incoming stream that starts with an HTTP request line, the server consumes
nothing (the claim demands consumption of the preamble regardless of the
server-side flag); with the flag false the same stream is consumed through
the CRLFCRLF. -/
theorem sudoku_C4_counterexample :
    serverMaskPhase true [80, 79, 83, 84, 32, 47, 13, 10, 13, 10] =
      some ([], [80, 79, 83, 84, 32, 47, 13, 10, 13, 10]) ∧
    [80, 79, 83, 84, 32, 47, 13, 10, 13, 10].take 4 = postBytes ∧
    serverMaskPhase false [80, 79, 83, 84, 32, 47, 13, 10, 13, 10] =
      some ([80, 79, 83, 84, 32, 47, 13, 10, 13, 10], []) := by decide

/-- C4 (amended): both server variants gate HTTP-preamble auto-detection on
their own `DisableHTTPMask` flag being false — with the flag set neither
performs any auto-detection.  With the flag false, the tunnel server
(server.go) consumes up to and including the first CRLFCRLF exactly when the
first four bytes spell `POST`, while the `apis` server (part_002) consumes
exactly when the four peeked bytes look like the start of an HTTP request
line (`POST`/`GET `/`PUT `/`HEAD`, spec section 4.4); a `POST` start
triggers both variants. -/
theorem sudoku_C4_amended (input : List Nat) :
    (serverMaskPhase true input = some ([], input) ∧
     apisMaskPhase true input = some ([], input)) ∧
    (input.take 4 ≠ postBytes → serverMaskPhase false input = some ([], input)) ∧
    (looksLikeHTTPRequestStart (input.take 4) = false →
      apisMaskPhase false input = some ([], input)) ∧
    (∀ peek, looksLikeHTTPPost peek = true →
      looksLikeHTTPRequestStart peek = true) ∧
    (∀ n, crlfcrlfEnd input = some n →
      (input.take 4 = postBytes →
        serverMaskPhase false input = some (input.take n, input.drop n)) ∧
      (looksLikeHTTPRequestStart (input.take 4) = true →
        apisMaskPhase false input = some (input.take n, input.drop n)) ∧
      4 ≤ n ∧ input.take n = input.take (n - 4) ++ [13, 10, 13, 10]) := by
  refine ⟨⟨?_, ?_⟩, ?_, ?_, ?_, ?_⟩
  · simp [serverMaskPhase, serverShouldConsumeMask]
  · simp [apisMaskPhase, apisShouldConsumeMask]
  · intro hne
    have : looksLikeHTTPPost (input.take 4) = false := by
      simp [looksLikeHTTPPost]
      intro _ h
      exact absurd h hne
    simp [serverMaskPhase, serverShouldConsumeMask, this]
  · intro hfalse
    simp [apisMaskPhase, apisShouldConsumeMask, hfalse]
  · intro peek hpost
    simp [looksLikeHTTPPost] at hpost
    simp [looksLikeHTTPRequestStart, httpRequestStarts, hpost.2, postBytes,
      hpost.1]
  · intro n hend
    obtain ⟨h4, hle, htake⟩ := crlfcrlfEnd_spec input n hend
    refine ⟨?_, ?_, h4, htake⟩
    · intro hpost
      have hlen : (input.take 4).length = 4 := by
        rw [hpost]; rfl
      have : serverShouldConsumeMask false (input.take 4) = true := by
        simp [serverShouldConsumeMask, looksLikeHTTPPost, hlen, hpost, postBytes]
      simp [serverMaskPhase, this, consumeHeaderSpec, hend]
    · intro hstart
      have : apisShouldConsumeMask false (input.take 4) = true := by
        simp [apisShouldConsumeMask, hstart]
      simp [apisMaskPhase, this, consumeHeaderSpec, hend]

/-- Witness for `sudoku_C4_amended`: a `POST` preamble is consumed by the
tunnel server, a `GET` preamble is consumed by the `apis` server but not by
the POST-only tunnel server. -/
theorem sudoku_C4_amended_witness :
    serverMaskPhase false [80, 79, 83, 84, 32, 47, 13, 10, 13, 10] =
      some ([80, 79, 83, 84, 32, 47, 13, 10, 13, 10], []) ∧
    apisMaskPhase false [71, 69, 84, 32, 47, 13, 10, 13, 10] =
      some ([71, 69, 84, 32, 47, 13, 10, 13, 10], []) ∧
    serverMaskPhase false [71, 69, 84, 32, 47, 13, 10, 13, 10] =
      some ([], [71, 69, 84, 32, 47, 13, 10, 13, 10]) := by
  have hp := (sudoku_C4_amended [80, 79, 83, 84, 32, 47, 13, 10, 13, 10]).2.2.2.2
    10 (by decide)
  have hg := (sudoku_C4_amended [71, 69, 84, 32, 47, 13, 10, 13, 10]).2.2.2.2
    9 (by decide)
  have hgs := (sudoku_C4_amended [71, 69, 84, 32, 47, 13, 10, 13, 10]).2.1
    (by decide)
  exact ⟨by simpa using hp.1 (by decide), by simpa using hg.2.1 (by decide), hgs⟩

/-- C5 counterexample: the server decision accepts two fresh preludes that
differ only inside bytes `[8..16)`.  Since at most one of the two tails can
equal the first 8 bytes of SHA-256 over the key seed, the server accepts a
prelude whose bytes `[8..16)` do not match the key hash, contradicting the
claim that such a prelude is rejected: the server never examines those
bytes. -/
theorem sudoku_C5_counterexample :
    serverHandshakeDecision 1700000000
      (be64Bytes 1700000000 ++ [0, 0, 0, 0, 0, 0, 0, 0]) 1 ⟨true⟩ = .success ∧
    serverHandshakeDecision 1700000000
      (be64Bytes 1700000000 ++ [9, 9, 9, 9, 9, 9, 9, 9]) 1 ⟨true⟩ = .success ∧
    (be64Bytes 1700000000 ++ [0, 0, 0, 0, 0, 0, 0, 0] : List Nat) ≠
      be64Bytes 1700000000 ++ [9, 9, 9, 9, 9, 9, 9, 9] := by decide

/-- C5 (amended): the client writes a 16-byte prelude whose bytes `[0..8)`
are the big-endian unix time and whose bytes `[8..16)` are the first 8 bytes
of SHA-256 over the key seed; the server verifies only the timestamp — its
decision is invariant under arbitrary replacement of bytes `[8..16)`
(authenticity of the prelude rests on the AEAD layer, not on a hash
comparison). -/
theorem sudoku_C5_amended :
    (∀ nowUnix keyHash, (buildHandshakePayload nowUnix keyHash).take 8 = be64Bytes nowUnix ∧
      (buildHandshakePayload nowUnix keyHash).drop 8 = keyHash.take 8) ∧
    (∀ (now : Int) (pre8 tail1 tail2 : List Nat) (m : Nat) (cfg : DownlinkCfg),
      pre8.length = 8 →
      serverHandshakeDecision now (pre8 ++ tail1) m cfg =
        serverHandshakeDecision now (pre8 ++ tail2) m cfg) := by
  constructor
  · intro nowUnix keyHash
    have h8 : (be64Bytes nowUnix).length = 8 := rfl
    constructor
    · rw [buildHandshakePayload, ← h8, List.take_left]
    · rw [buildHandshakePayload, ← h8, List.drop_left]
  · intro now pre8 tail1 tail2 m cfg hlen
    have h1 : (pre8 ++ tail1).take 8 = pre8 := by rw [← hlen, List.take_left]
    have h2 : (pre8 ++ tail2).take 8 = pre8 := by rw [← hlen, List.take_left]
    rw [serverHandshakeDecision_eq, serverHandshakeDecision_eq, h1, h2]

/-- Witness for `sudoku_C5_amended` at concrete inputs. -/
theorem sudoku_C5_amended_witness :
    (buildHandshakePayload 1700000000 (List.replicate 32 7)).take 8 =
      be64Bytes 1700000000 ∧
    serverHandshakeDecision 1700000000
        (be64Bytes 1700000000 ++ [0, 0, 0, 0, 0, 0, 0, 0]) 1 ⟨true⟩ =
      serverHandshakeDecision 1700000000
        (be64Bytes 1700000000 ++ [9, 9, 9, 9, 9, 9, 9, 9]) 1 ⟨true⟩ :=
  ⟨(sudoku_C5_amended.1 1700000000 (List.replicate 32 7)).1,
   sudoku_C5_amended.2 1700000000 (be64Bytes 1700000000)
     [0, 0, 0, 0, 0, 0, 0, 0] [9, 9, 9, 9, 9, 9, 9, 9] 1 ⟨true⟩ (by decide)⟩

/-- C6: the downlink-mode byte is `0x01` for pure downlink and `0x02` for
packed downlink (on both the client and the server, which share
`downlinkModeByte`); with a fresh timestamp the server handshake succeeds
iff the client's byte equals the byte derived from the server's own
configuration, a configuration mismatch yields `modeMismatch`, and no byte
other than the server's own can succeed.  Hence a packed-mode client can
never complete a handshake with a pure-mode server and vice versa. -/
theorem sudoku_C6 (now : Int) (prelude : List Nat) (client server : DownlinkCfg)
    (hfresh : goAbs (now - toInt64 (beVal (prelude.take 8))) ≤ 60) :
    (downlinkModeByte ⟨true⟩ = 0x01 ∧ downlinkModeByte ⟨false⟩ = 0x02) ∧
    (serverHandshakeDecision now prelude (downlinkModeByte client) server = .success ↔
      client.enablePureDownlink = server.enablePureDownlink) ∧
    (client.enablePureDownlink ≠ server.enablePureDownlink →
      serverHandshakeDecision now prelude (downlinkModeByte client) server =
        .modeMismatch) ∧
    (∀ m, m ≠ downlinkModeByte server →
      serverHandshakeDecision now prelude m server ≠ .success) := by
  have hno : ¬ 60 < goAbs (now - toInt64 (beVal (prelude.take 8))) :=
    not_lt.mpr hfresh
  refine ⟨⟨rfl, rfl⟩, ?_, ?_, ?_⟩
  · rw [serverHandshakeDecision_eq, if_neg hno]
    rcases client with ⟨cb⟩
    rcases server with ⟨sb⟩
    cases cb <;> cases sb <;>
      simp [downlinkModeByte, DownlinkModePure, DownlinkModePacked]
  · intro hne
    rw [serverHandshakeDecision_eq, if_neg hno]
    rcases client with ⟨cb⟩
    rcases server with ⟨sb⟩
    cases cb <;> cases sb <;>
      simp_all [downlinkModeByte, DownlinkModePure, DownlinkModePacked]
  · intro m hm
    rw [serverHandshakeDecision_eq, if_neg hno, if_pos hm]
    simp

/-- Witness for `sudoku_C6`: a packed-mode client byte against a pure-mode
server is reported as a mode mismatch. -/
theorem sudoku_C6_witness :
    serverHandshakeDecision 1700000000
      (be64Bytes 1700000000 ++ [0, 0, 0, 0, 0, 0, 0, 0])
      (downlinkModeByte ⟨false⟩) ⟨true⟩ = .modeMismatch :=
  (sudoku_C6 1700000000 (be64Bytes 1700000000 ++ [0, 0, 0, 0, 0, 0, 0, 0])
    ⟨false⟩ ⟨true⟩ (by decide)).2.2.1 (by decide)

/-- C2 (code-bug evaluation): with raw chunks `[10,20]` consumed while
decoding a fresh prelude and raw chunk `[30]` consumed while decoding a
mismatched downlink-mode byte (client packed `0x02`, server pure), the
`HandshakeError` given to the suspicious-input dispatcher carries `ReadData
= []` — none of the consumed bytes — because `serverHandshakeCore` releases
the recorder (`sConn.StopRecording()`) after the timestamp check and before
the mode read.  By contrast the stale-timestamp failure, which occurs before
`StopRecording`, does carry all consumed bytes. -/
theorem sudoku_C2_codebug :
    serverHandshakeReadData [[10, 20]] [[30]] [] 1700000000 1700000000 2 ⟨true⟩ =
      some [] ∧
    serverHandshakeReadData [[10, 20]] [[30]] [] 1700000000 1700000000 2 ⟨true⟩ ≠
      some [10, 20, 30] ∧
    serverHandshakeReadData [[10, 20]] [] [] 1700000000 1699999000 2 ⟨true⟩ =
      some [10, 20] := by decide

/-- C9: `ReadUoTDatagram` rejects a frame header exactly when the address
length is 0 or exceeds 64 KiB or the payload length exceeds 64 KiB; in the
`HandleUoTServer` loops an unresolvable destination is a per-frame skip that
keeps the session alive, while a tunnel read error, a UDP `WriteTo` error, a
UDP `ReadFrom` error or a tunnel write error each close both the tunnel
connection and the UDP socket; a session trace ends in `closedBoth` exactly
when some event is an I/O error. -/
theorem sudoku_C9 :
    (∀ h0 h1 h2 h3 : Nat,
      readUoTHeader [h0, h1, h2, h3] = none ↔
        (256 * h0 + h1 = 0 ∨ 64 * 1024 < 256 * h0 + h1 ∨ 64 * 1024 < 256 * h2 + h3)) ∧
    (∀ (w : Bool) evs, uotTunnelTrace (UoTTunnelEvent.frame false w :: evs) =
      .skipped :: uotTunnelTrace evs) ∧
    uotTunnelStep .readErr = .closedBoth ∧
    (∀ w : Bool, uotTunnelStep (.frame true w) =
      if w then .delivered else .closedBoth) ∧
    (uotUdpStep .readFromErr = .closedBoth ∧ uotUdpStep (.datagram false) = .closedBoth) ∧
    (∀ evs, UoTStep.closedBoth ∈ uotTunnelTrace evs ↔
      ∃ ev ∈ evs, uotTunnelStep ev = .closedBoth) := by
  refine ⟨?_, ?_, rfl, ?_, ⟨rfl, rfl⟩, ?_⟩
  · intro h0 h1 h2 h3
    show (if 256 * h0 + h1 = 0 ∨ 64 * 1024 < 256 * h0 + h1 then none
      else if 64 * 1024 < 256 * h2 + h3 then none
      else some (256 * h0 + h1, 256 * h2 + h3)) = none ↔ _
    split_ifs with hA hB
    · simp only [true_iff]
      omega
    · simp only [true_iff]
      omega
    · simp only [reduceCtorEq, false_iff]
      omega
  · intro w evs
    rfl
  · intro w
    cases w <;> rfl
  · intro evs
    induction evs with
    | nil => simp [uotTunnelTrace]
    | cons ev rest ih =>
      rw [uotTunnelTrace]
      cases hstep : uotTunnelStep ev <;> simp_all

theorem tryTables_some {α : Type} (probeFn : α → List Nat → ProbeOutcome)
    (probe : List Nat) :
    ∀ (ts : List α) (t : α) (nm : Bool),
      tryTables probeFn probe ts = (some t, nm) → t ∈ ts ∧ probeFn t probe = .ok := by
  intro ts
  induction ts with
  | nil => intro t nm h; simp [tryTables] at h
  | cons t0 rest ih =>
    intro t nm h
    rw [tryTables] at h
    cases hp : probeFn t0 probe with
    | ok =>
      rw [hp] at h
      simp only [Prod.mk.injEq, Option.some.injEq] at h
      exact ⟨by simp [h.1], h.1 ▸ hp⟩
    | shortRead =>
      rw [hp] at h
      simp only [Prod.mk.injEq] at h
      cases htr : (tryTables probeFn probe rest).1 with
      | none => rw [htr] at h; exact absurd h.1 (by simp)
      | some t1 =>
        rw [htr] at h
        have := ih t1 (tryTables probeFn probe rest).2 (by rw [← htr])
        obtain ⟨rfl⟩ : t1 = t := by simpa using h.1
        exact ⟨List.mem_cons_of_mem _ this.1, this.2⟩
    | otherErr =>
      rw [hp] at h
      have := ih t nm h
      exact ⟨List.mem_cons_of_mem _ this.1, this.2⟩


theorem selectRound_single {α : Type} (probeFn : α → List Nat → ProbeOutcome)
    (t : α) (probe : List Nat) :
    selectRound probeFn [t] probe = .done (.selected t probe) := rfl

theorem selectRound_cons2 {α : Type} (probeFn : α → List Nat → ProbeOutcome)
    (t1 t2 : α) (ts : List α) (probe : List Nat) :
    selectRound probeFn (t1 :: t2 :: ts) probe =
      match tryTables probeFn probe (t1 :: t2 :: ts) with
      | (some t, _) => .done (.selected t probe)
      | (none, needMore) =>
        if ¬ needMore then .done (.selectionFailed probe)
        else if 64 * 1024 ≤ probe.length then .done (.probeOverflow probe)
        else .needChunk := rfl


theorem selectRound_selected_eq {α : Type} (probeFn : α → List Nat → ProbeOutcome)
    (tables : List α) (probe : List Nat) (t : α) (pre : List Nat) :
    selectRound probeFn tables probe = .done (.selected t pre) → pre = probe := by
  rcases tables with _ | ⟨t1, _ | ⟨t2, ts⟩⟩
  · intro h
    have : selectRound probeFn ([] : List α) probe = .done (.selectionFailed probe) := rfl
    rw [this] at h
    simp at h
  · intro h
    rw [selectRound_single] at h
    simp at h
    exact h.2.symm
  · intro h
    rw [selectRound_cons2] at h
    cases hm : tryTables probeFn probe (t1 :: t2 :: ts) with
    | mk o nm =>
      rw [hm] at h
      cases o with
      | some t0 =>
        simp at h
        exact h.2.symm
      | none =>
        cases nm with
        | false => simp at h
        | true =>
          simp at h
          split at h <;> simp at h

theorem selectLoop_selected_consumed {α : Type}
    (probeFn : α → List Nat → ProbeOutcome) (tables : List α) :
    ∀ (reads : List (List Nat × Bool)) (buffered : List Nat) (t : α) (pre : List Nat),
      selectLoop probeFn tables buffered reads = .selected t pre →
      ∃ consumed rest, reads = consumed ++ rest ∧
        (∀ de ∈ consumed, de.2 = false) ∧
        pre = buffered ++ (consumed.map Prod.fst).join := by
  intro reads
  induction reads with
  | nil =>
    intro buffered t pre h
    refine ⟨[], [], by simp, by simp, ?_⟩
    rw [selectLoop] at h
    cases hr : selectRound probeFn tables buffered with
    | done r =>
      rw [hr] at h
      subst h
      simpa using selectRound_selected_eq probeFn tables buffered t pre hr
    | needChunk => rw [hr] at h; simp at h
  | cons de rest ih =>
    intro buffered t pre h
    rcases de with ⟨d, e⟩
    rw [selectLoop] at h
    cases hr : selectRound probeFn tables buffered with
    | done r =>
      rw [hr] at h
      subst h
      refine ⟨[], (d, e) :: rest, by simp, by simp, ?_⟩
      simpa using selectRound_selected_eq probeFn tables buffered t pre hr
    | needChunk =>
      rw [hr] at h
      cases e with
      | true => simp at h
      | false =>
        have h' : selectLoop probeFn tables (buffered ++ d) rest = .selected t pre := by
          simpa using h
        obtain ⟨consumed, rest2, hrd, hall, hpre⟩ := ih (buffered ++ d) t pre h'
        refine ⟨(d, false) :: consumed, rest2, by simp [hrd], ?_, by simp [hpre]⟩
        intro x hx
        rcases List.mem_cons.mp hx with hx1 | hx1
        · simp [hx1]
        · exact hall x hx1

theorem selectLoop_done {α : Type} (probeFn : α → List Nat → ProbeOutcome)
    (tables : List α) (probe : List Nat) (reads : List (List Nat × Bool))
    (r : SelectResult α) (hr : selectRound probeFn tables probe = .done r) :
    selectLoop probeFn tables probe reads = r := by
  cases reads with
  | nil => rw [selectLoop, hr]
  | cons de rest =>
    rcases de with ⟨d, e⟩
    rw [selectLoop, hr]

/-- C7: behaviour of `selectTableByProbe` with `N >= 2` candidate tables,
over the abstract per-candidate probe outcome (`ok` = prelude+mode decoded,
`shortRead` = `io.EOF`/`io.ErrUnexpectedEOF`, `otherErr` = any other error):
more than 255 candidates is an immediate error; a candidate that decodes the
buffered bytes is selected with exactly those bytes as the replay prefix; if
every candidate fails and none reported a short read the probe fails without
reading more; on a short read the loop fails at 64 KiB of buffered probe
bytes, and otherwise consumes one more read (at most 4 KiB, the size of
`tmp`) and retries all candidates; and any selected result replays exactly
the bytes consumed from the stream (initially buffered bytes plus the
error-free reads), in order, in front of the real codec stack. -/
theorem sudoku_C7 (α : Type) (probeFn : α → List Nat → ProbeOutcome)
    (tables : List α) (buffered : List Nat) (reads : List (List Nat × Bool)) :
    (255 < tables.length →
      selectTableByProbe probeFn tables buffered reads = .tooManyTables) ∧
    (2 ≤ tables.length → tables.length ≤ 255 →
      (∀ t nm, tryTables probeFn buffered tables = (some t, nm) →
        selectTableByProbe probeFn tables buffered reads = .selected t buffered ∧
        t ∈ tables ∧ probeFn t buffered = .ok) ∧
      (tryTables probeFn buffered tables = (none, false) →
        selectTableByProbe probeFn tables buffered reads =
          .selectionFailed buffered) ∧
      (tryTables probeFn buffered tables = (none, true) →
        (64 * 1024 ≤ buffered.length →
          selectTableByProbe probeFn tables buffered reads =
            .probeOverflow buffered) ∧
        (buffered.length < 64 * 1024 →
          ∀ d rest, d.length ≤ 4 * 1024 → reads = (d, false) :: rest →
            selectTableByProbe probeFn tables buffered reads =
              selectLoop probeFn tables (buffered ++ d) rest))) ∧
    (∀ t pre, selectTableByProbe probeFn tables buffered reads = .selected t pre →
      ∃ consumed rest, reads = consumed ++ rest ∧
        (∀ de ∈ consumed, de.2 = false) ∧
        pre = buffered ++ (consumed.map Prod.fst).join) := by
  refine ⟨?_, ?_, ?_⟩
  · intro h255
    unfold selectTableByProbe
    rw [if_neg (by omega), if_pos h255]
  · intro h2 h255
    have hsel : selectTableByProbe probeFn tables buffered reads =
        selectLoop probeFn tables buffered reads := by
      unfold selectTableByProbe
      rw [if_neg (by omega), if_neg (by omega)]
    rcases tables with _ | ⟨t1, _ | ⟨t2, ts⟩⟩
    · simp at h2
    · simp at h2
    · refine ⟨?_, ?_, ?_⟩
      · intro t nm htr
        have hr : selectRound probeFn (t1 :: t2 :: ts) buffered =
            .done (.selected t buffered) := by
          rw [selectRound_cons2, htr]
        refine ⟨hsel.trans (selectLoop_done _ _ _ _ _ hr), ?_⟩
        exact tryTables_some probeFn buffered (t1 :: t2 :: ts) t nm htr
      · intro htr
        have hr : selectRound probeFn (t1 :: t2 :: ts) buffered =
            .done (.selectionFailed buffered) := by
          rw [selectRound_cons2, htr]
          simp
        exact hsel.trans (selectLoop_done _ _ _ _ _ hr)
      · intro htr
        constructor
        · intro hlen
          have hr : selectRound probeFn (t1 :: t2 :: ts) buffered =
              .done (.probeOverflow buffered) := by
            rw [selectRound_cons2, htr]
            simp [hlen]
          exact hsel.trans (selectLoop_done _ _ _ _ _ hr)
        · intro hlt d rest hd hreads
          have hr : selectRound probeFn (t1 :: t2 :: ts) buffered = .needChunk := by
            rw [selectRound_cons2, htr]
            simp
            omega
          subst hreads
          rw [hsel, selectLoop, hr]
          simp
  · intro t pre h
    have hsel : selectTableByProbe probeFn tables buffered reads =
        selectLoop probeFn tables buffered reads := by
      unfold selectTableByProbe at h ⊢
      split at h
      · simp at h
      · split at h
        · simp at h
        · rw [if_neg (by omega), if_neg (by omega)]
    rw [hsel] at h
    exact selectLoop_selected_consumed probeFn tables reads buffered t pre h

set_option maxRecDepth 8192 in
/-- Witness for `sudoku_C7`: two candidate tables where only table 1 decodes
once at least 3 probe bytes are available — the first round short-reads, so
the loop consumes the next chunk and retries; and 256 candidates are
immediately rejected. -/
theorem sudoku_C7_witness :
    selectTableByProbe
        (fun t probe => if t = 1 ∧ 3 ≤ probe.length then ProbeOutcome.ok else .shortRead)
        [0, 1] [1, 2] [([3], false)] =
      selectLoop
        (fun t probe => if t = 1 ∧ 3 ≤ probe.length then ProbeOutcome.ok else .shortRead)
        [0, 1] [1, 2, 3] [] ∧
    selectTableByProbe
        (fun t probe => if t = 1 ∧ 3 ≤ probe.length then ProbeOutcome.ok else .shortRead)
        (List.replicate 256 0) [1, 2] [([3], false)] = .tooManyTables := by
  constructor
  · exact ((((sudoku_C7 Nat
      (fun t probe => if t = 1 ∧ 3 ≤ probe.length then ProbeOutcome.ok else .shortRead)
      [0, 1] [1, 2] [([3], false)]).2.1 (by decide) (by decide)).2.2
        (by decide)).2 (by decide)) [3] [] (by decide) rfl
  · exact (sudoku_C7 Nat
      (fun t probe => if t = 1 ∧ 3 ≤ probe.length then ProbeOutcome.ok else .shortRead)
      (List.replicate 256 0) [1, 2] [([3], false)]).1 (by decide)

theorem padTick_mem (o : PadOracle) (p : PadState) :
    ∀ b ∈ (padTick o p).1, b = o.bytes p.idx := by
  intro b hb
  by_cases hc : p.countdown - 1 ≤ 0
  · simp [padTick, hc] at hb
    exact hb
  · simp [padTick, hc] at hb

theorem padCheckBlock_mem (o : PadOracle) (p : PadState) :
    ∀ b ∈ (padCheckBlock o p).1, b = o.bytes p.idx := by
  intro b hb
  by_cases hc : p.countdown ≤ 0
  · simp [padCheckBlock, hc] at hb
    exact hb
  · simp [padCheckBlock, hc] at hb

theorem encodeGroup_notPad : ∀ (isA : Bool) (g : Nat), g < 64 →
    isPaddingByte isA (encodeGroup isA g) = false := by decide

theorem decodeGroupByte_encodeGroup : ∀ (isA : Bool) (g : Nat), g < 64 →
    decodeGroupByte isA (encodeGroup isA g) = g := by decide

theorem padMarker_isPad : ∀ isA : Bool, isPaddingByte isA (padMarker isA) = true := by
  decide

theorem keepByte_encodeGroup : ∀ (isA : Bool) (g : Nat), g < 64 →
    keepByte isA (encodeGroup isA g) = true := by decide

theorem keepByte_padMarker : ∀ isA : Bool, keepByte isA (padMarker isA) = true := by
  decide

theorem keepByte_false_of_pad {isA : Bool} {b : Nat}
    (hpad : isPaddingByte isA b = true) (hne : b ≠ padMarker isA) :
    keepByte isA b = false := by
  unfold keepByte
  rw [hpad]
  simp [hne]

theorem packedReadList_append (isA : Bool) :
    ∀ (a b : List Nat) (st : PackedRState),
      packedReadList isA st (a ++ b) =
        ((packedReadList isA st a).1 ++
           (packedReadList isA (packedReadList isA st a).2 b).1,
         (packedReadList isA (packedReadList isA st a).2 b).2) := by
  intro a
  induction a with
  | nil => intro b st; simp [packedReadList]
  | cons x rest ih =>
    intro b st
    rw [List.cons_append, packedReadList, packedReadList, ih]
    simp [List.append_assoc]

theorem packedReadList_erase (isA : Bool) :
    ∀ (l : List Nat) (st : PackedRState),
      packedReadList isA st (erasePads isA l) = packedReadList isA st l := by
  intro l
  induction l with
  | nil => intro st; rfl
  | cons b rest ih =>
    intro st
    by_cases hk : keepByte isA b = true
    · rw [show erasePads isA (b :: rest) = b :: erasePads isA rest by
        simp [erasePads, hk]]
      rw [packedReadList, packedReadList, ih]
    · have hk' : keepByte isA b = false := by simpa using hk
      have hpad : isPaddingByte isA b = true := by
        by_contra hc
        have : isPaddingByte isA b = false := by simpa using hc
        simp [keepByte, this] at hk'
      have hne : b ≠ padMarker isA := by
        intro hcontr
        rw [hcontr, keepByte_padMarker] at hk'
        exact absurd hk' (by simp)
      have hstep : packedReadStep isA st b = ([], st) := by
        unfold packedReadStep
        rw [if_pos hpad, if_neg hne]
      rw [show erasePads isA (b :: rest) = erasePads isA rest by
        simp [erasePads, hk']]
      rw [ih, packedReadList, hstep]
      simp

theorem emitGroupsLoopCore_step (isA : Bool) (v cnt : Nat) (h : 6 ≤ cnt) :
    emitGroupsLoopCore isA ⟨v, cnt⟩ =
      (encodeGroup isA (v / 2 ^ (cnt - 6) % 256 % 64) ::
         (emitGroupsLoopCore isA ⟨v % 2 ^ (cnt - 6), cnt - 6⟩).1,
       (emitGroupsLoopCore isA ⟨v % 2 ^ (cnt - 6), cnt - 6⟩).2) := by
  rw [emitGroupsLoopCore]
  simp [dif_pos h]

theorem emitGroupsLoopCore_stop (isA : Bool) (v cnt : Nat) (h : cnt < 6) :
    emitGroupsLoopCore isA ⟨v, cnt⟩ = ([], ⟨v, cnt⟩) := by
  rw [emitGroupsLoopCore]
  simp [dif_neg (by omega : ¬ 6 ≤ cnt)]

theorem emitGroupsLoop_erase (isA : Bool) (o : PadOracle) (hOK : PadOracleOK isA o) :
    ∀ (n : Nat) (w : PackedWState) (p : PadState), w.bitCount ≤ n →
      erasePads isA (emitGroupsLoop isA o w p).1 = (emitGroupsLoopCore isA w).1 ∧
      (emitGroupsLoop isA o w p).2.1 = (emitGroupsLoopCore isA w).2 := by
  intro n
  induction n with
  | zero =>
    intro w p hw
    rw [emitGroupsLoop, emitGroupsLoopCore, dif_neg (by omega), dif_neg (by omega)]
    exact ⟨rfl, rfl⟩
  | succ n ih =>
    intro w p hw
    by_cases h6 : 6 ≤ w.bitCount
    · rw [emitGroupsLoop, emitGroupsLoopCore, dif_pos h6, dif_pos h6]
      have hpt : erasePads isA (padTick o p).1 = [] := by
        rcases hp : (padTick o p).1 with _ | ⟨pb, prest⟩
        · rfl
        · have hmem := padTick_mem o p
          rw [hp] at hmem
          have h1 : pb = o.bytes p.idx := hmem pb (by simp)
          have h2 : prest = [] := by
            by_cases hc : p.countdown - 1 ≤ 0
            · simp [padTick, hc] at hp
              simp [hp.2]
            · simp [padTick, hc] at hp
          subst h1; subst h2
          simp [erasePads, keepByte_false_of_pad (hOK p.idx).1 (hOK p.idx).2]
      have hrec := ih ⟨w.bitBuf % 2 ^ (w.bitCount - 6), w.bitCount - 6⟩ (padTick o p).2
        (by simp; omega)
      simp only [erasePads, List.filter_append, List.filter_cons]
      rw [keepByte_encodeGroup isA _ (by omega)]
      simp only [erasePads] at hpt hrec
      rw [hpt, hrec.1]
      exact ⟨by simp, hrec.2⟩
    · rw [emitGroupsLoop, emitGroupsLoopCore, dif_neg h6, dif_neg h6]
      exact ⟨rfl, rfl⟩

theorem pushByteSlow_erase (isA : Bool) (o : PadOracle) (hOK : PadOracleOK isA o)
    (w : PackedWState) (p : PadState) (b : Nat) :
    erasePads isA (pushByteSlow isA o w p b).1 = (pushByteCore isA w b).1 ∧
    (pushByteSlow isA o w p b).2.1 = (pushByteCore isA w b).2 :=
  emitGroupsLoop_erase isA o hOK (w.bitCount + 8) _ p (by simp)

theorem writeHead_zeroCount (isA : Bool) (o : PadOracle) (p : PadState)
    (w : PackedWState) (hw : w.bitCount = 0) (x : List Nat) :
    writeHead isA o w p x = ([], w, p, x) := by
  cases x with
  | nil => rfl
  | cons b rest => rw [writeHead, if_pos hw]

theorem pushByteCore_cnt0 (isA : Bool) (b : Nat) (hb : b < 256) :
    pushByteCore isA ⟨0, 0⟩ b = ([encodeGroup isA (b / 4)], ⟨b % 4, 2⟩) := by
  unfold pushByteCore
  have h1 : (0 * 256 + b) % 2 ^ 64 = b := by
    rw [Nat.mod_eq_of_lt]
    · omega
    · calc 0 * 256 + b = b := by omega
        _ < 256 := hb
        _ < 2 ^ 64 := by norm_num
  rw [h1, emitGroupsLoopCore_step isA b 8 (by omega),
    emitGroupsLoopCore_stop isA _ 2 (by omega)]
  have h2 : b / 2 ^ (8 - 6) % 256 % 64 = b / 4 := by omega
  have h3 : b % 2 ^ (8 - 6) = b % 4 := by omega
  rw [h2, h3]

theorem pushByteCore_cnt2 (isA : Bool) (v b : Nat) (hv : v < 4) (hb : b < 256) :
    pushByteCore isA ⟨v, 2⟩ b =
      ([encodeGroup isA (v * 16 + b / 16)], ⟨b % 16, 4⟩) := by
  unfold pushByteCore
  have h1 : (v * 256 + b) % 2 ^ 64 = v * 256 + b := by
    rw [Nat.mod_eq_of_lt]
    calc v * 256 + b < 4 * 256 + 256 := by omega
      _ < 2 ^ 64 := by norm_num
  rw [h1, emitGroupsLoopCore_step isA _ 10 (by omega),
    emitGroupsLoopCore_stop isA _ 4 (by omega)]
  have h2 : (v * 256 + b) / 2 ^ (10 - 6) % 256 % 64 = v * 16 + b / 16 := by omega
  have h3 : (v * 256 + b) % 2 ^ (10 - 6) = b % 16 := by omega
  rw [h2, h3]

theorem pushByteCore_cnt4 (isA : Bool) (v b : Nat) (hv : v < 16) (hb : b < 256) :
    pushByteCore isA ⟨v, 4⟩ b =
      ([encodeGroup isA (v * 4 + b / 64), encodeGroup isA (b % 64)], ⟨0, 0⟩) := by
  unfold pushByteCore
  have h1 : (v * 256 + b) % 2 ^ 64 = v * 256 + b := by
    rw [Nat.mod_eq_of_lt]
    calc v * 256 + b < 16 * 256 + 256 := by omega
      _ < 2 ^ 64 := by norm_num
  rw [h1, emitGroupsLoopCore_step isA _ 12 (by omega),
    emitGroupsLoopCore_step isA _ 6 (by omega),
    emitGroupsLoopCore_stop isA _ 0 (by omega)]
  have h2 : (v * 256 + b) / 2 ^ (12 - 6) % 256 % 64 = v * 4 + b / 64 := by omega
  have h3 : (v * 256 + b) % 2 ^ (12 - 6) = b % 64 := by omega
  have h4 : b % 64 / 2 ^ (6 - 6) % 256 % 64 = b % 64 := by omega
  have h5 : b % 64 % 2 ^ (6 - 6) = 0 := by omega
  rw [h2, h3, h4, h5]

theorem slowCore_append (isA : Bool) :
    ∀ (a b : List Nat) (w : PackedWState),
      slowCore isA w (a ++ b) =
        ((slowCore isA w a).1 ++ (slowCore isA (slowCore isA w a).2 b).1,
         (slowCore isA (slowCore isA w a).2 b).2) := by
  intro a
  induction a with
  | nil => intro b w; simp [slowCore]
  | cons x rest ih =>
    intro b w
    rw [List.cons_append, slowCore, slowCore, ih]
    simp [List.append_assoc]

theorem slowCore_triple (isA : Bool) (b1 b2 b3 : Nat)
    (h1 : b1 < 256) (h2 : b2 < 256) (h3 : b3 < 256) :
    slowCore isA ⟨0, 0⟩ [b1, b2, b3] =
      ([encodeGroup isA (b1 / 4), encodeGroup isA (b1 % 4 * 16 + b2 / 16),
        encodeGroup isA (b2 % 16 * 4 + b3 / 64), encodeGroup isA (b3 % 64)],
       ⟨0, 0⟩) := by
  rw [slowCore, pushByteCore_cnt0 isA b1 h1,
    slowCore, pushByteCore_cnt2 isA (b1 % 4) b2 (by omega) h2,
    slowCore, pushByteCore_cnt4 isA (b2 % 16) b3 (by omega) h3,
    slowCore]
  simp

theorem fastBlock_erase (isA : Bool) (o : PadOracle) (hOK : PadOracleOK isA o)
    (p : PadState) (b1 b2 b3 : Nat)
    (h1 : b1 < 256) (h2 : b2 < 256) (h3 : b3 < 256) :
    erasePads isA (fastBlock isA o p b1 b2 b3).1 =
      (slowCore isA ⟨0, 0⟩ [b1, b2, b3]).1 := by
  rw [slowCore_triple isA b1 b2 b3 h1 h2 h3]
  unfold fastBlock
  have hpc : erasePads isA (padCheckBlock o p).1 = [] := by
    rcases hp : (padCheckBlock o p).1 with _ | ⟨pb, prest⟩
    · rfl
    · have hmem := padCheckBlock_mem o p
      rw [hp] at hmem
      have hpb : pb = o.bytes p.idx := hmem pb (by simp)
      have hrest : prest = [] := by
        by_cases hc : p.countdown ≤ 0
        · simp [padCheckBlock, hc] at hp
          simp [hp.2]
        · simp [padCheckBlock, hc] at hp
      subst hpb; subst hrest
      simp [erasePads, keepByte_false_of_pad (hOK p.idx).1 (hOK p.idx).2]
  simp only [erasePads, List.filter_append] at hpc ⊢
  rw [hpc]
  have hg1 : b1 / 4 % 64 = b1 / 4 := by omega
  have hg2 : b1 % 4 * 16 + b2 / 16 % 16 = b1 % 4 * 16 + b2 / 16 := by omega
  have hg3 : b2 % 16 * 4 + b3 / 64 % 4 = b2 % 16 * 4 + b3 / 64 := by omega
  simp only [List.filter_cons, List.filter_nil,
    keepByte_encodeGroup isA _ (by omega : b1 / 4 % 64 < 64),
    keepByte_encodeGroup isA _ (by omega : b1 % 4 * 16 + b2 / 16 % 16 < 64),
    keepByte_encodeGroup isA _ (by omega : b2 % 16 * 4 + b3 / 64 % 4 < 64),
    keepByte_encodeGroup isA _ (by omega : b3 % 64 < 64)]
  rw [hg1, hg2, hg3]
  simp

theorem writeFast_erase (isA : Bool) (o : PadOracle) (hOK : PadOracleOK isA o) :
    ∀ (n : Nat) (x : List Nat) (p : PadState), x.length ≤ n → ByteList x →
      ∃ triples rem, x = triples ++ rem ∧
        (writeFast isA o p x).2.2 = rem ∧ rem.length < 3 ∧
        erasePads isA (writeFast isA o p x).1 = (slowCore isA ⟨0, 0⟩ triples).1 ∧
        (slowCore isA ⟨0, 0⟩ triples).2 = ⟨0, 0⟩ := by
  intro n
  induction n with
  | zero =>
    intro x p hx hbl
    have : x = [] := by
      cases x with
      | nil => rfl
      | cons a b => simp at hx
    subst this
    exact ⟨[], [], rfl, rfl, by simp, rfl, rfl⟩
  | succ n ih =>
    intro x p hx hbl
    rcases x with _ | ⟨b1, _ | ⟨b2, _ | ⟨b3, rest⟩⟩⟩
    · exact ⟨[], [], rfl, rfl, by simp, rfl, rfl⟩
    · exact ⟨[], [b1], rfl, rfl, by simp, rfl, rfl⟩
    · exact ⟨[], [b1, b2], rfl, rfl, by simp, rfl, rfl⟩
    · have hb1 : b1 < 256 := hbl b1 (by simp)
      have hb2 : b2 < 256 := hbl b2 (by simp)
      have hb3 : b3 < 256 := hbl b3 (by simp)
      obtain ⟨triples, rem, hsplit, hrem, hlen, herase, hstate⟩ :=
        ih rest (fastBlock isA o p b1 b2 b3).2 (by simp at hx ⊢; omega)
          (fun b hb => hbl b (by simp [hb]))
      refine ⟨b1 :: b2 :: b3 :: triples, rem, by simp [hsplit], ?_, hlen, ?_, ?_⟩
      · rw [writeFast]
        exact hrem
      · rw [writeFast]
        simp only [erasePads, List.filter_append]
        have hfb := fastBlock_erase isA o hOK p b1 b2 b3 hb1 hb2 hb3
        simp only [erasePads] at hfb herase
        rw [hfb, herase]
        have : (b1 :: b2 :: b3 :: triples) = [b1, b2, b3] ++ triples := rfl
        rw [this, slowCore_append, slowCore_triple isA b1 b2 b3 hb1 hb2 hb3]
      · have : (b1 :: b2 :: b3 :: triples) = [b1, b2, b3] ++ triples := rfl
        rw [this, slowCore_append, slowCore_triple isA b1 b2 b3 hb1 hb2 hb3]
        exact hstate

theorem writeTail_erase (isA : Bool) (o : PadOracle) (hOK : PadOracleOK isA o) :
    ∀ (x : List Nat) (w : PackedWState) (p : PadState),
      erasePads isA (writeTail isA o w p x).1 = (slowCore isA w x).1 ∧
      (writeTail isA o w p x).2.1 = (slowCore isA w x).2 := by
  intro x
  induction x with
  | nil => intro w p; exact ⟨rfl, rfl⟩
  | cons b rest ih =>
    intro w p
    obtain ⟨he, hs⟩ := pushByteSlow_erase isA o hOK w p b
    obtain ⟨he2, hs2⟩ := ih (pushByteCore isA w b).2 (pushByteSlow isA o w p b).2.2
    rw [writeTail, slowCore]
    constructor
    · simp only [erasePads, List.filter_append]
      rw [hs]
      simp only [erasePads] at he he2
      rw [he, he2]
    · simp only []
      rw [hs, hs2]

theorem writeFinal_erase (isA : Bool) (o : PadOracle) (hOK : PadOracleOK isA o)
    (w : PackedWState) (p : PadState) :
    erasePads isA (writeFinal isA o w p).1 = (writeFinalCore isA w).1 ∧
    (writeFinal isA o w p).2.1 = (writeFinalCore isA w).2 := by
  unfold writeFinal writeFinalCore
  by_cases hc : 0 < w.bitCount
  · rw [if_pos hc, if_pos hc]
    have hpt : erasePads isA (padTick o p).1 = [] := by
      rcases hp : (padTick o p).1 with _ | ⟨pb, prest⟩
      · rfl
      · have hmem := padTick_mem o p
        rw [hp] at hmem
        have hpb : pb = o.bytes p.idx := hmem pb (by simp)
        have hrest : prest = [] := by
          by_cases hcd : p.countdown - 1 ≤ 0
          · simp [padTick, hcd] at hp
            simp [hp.2]
          · simp [padTick, hcd] at hp
        subst hpb; subst hrest
        simp [erasePads, keepByte_false_of_pad (hOK p.idx).1 (hOK p.idx).2]
    constructor
    · simp only [erasePads, List.filter_append] at hpt ⊢
      rw [hpt]
      simp only [List.filter_cons, List.filter_nil,
        keepByte_encodeGroup isA _ (by omega :
          w.bitBuf * 2 ^ (6 - w.bitCount) % 256 % 64 < 64),
        keepByte_padMarker isA]
      simp
    · rfl
  · rw [if_neg hc, if_neg hc]
    exact ⟨rfl, rfl⟩

theorem packedWrite_erase (isA : Bool) (o : PadOracle) (hOK : PadOracleOK isA o)
    (p : PadState) (x : List Nat) (hx : ByteList x) :
    erasePads isA (packedWrite isA o ⟨0, 0⟩ p x).1 =
      (slowCore isA ⟨0, 0⟩ x).1 ++
        (writeFinalCore isA (slowCore isA ⟨0, 0⟩ x).2).1 ∧
    (packedWrite isA o ⟨0, 0⟩ p x).2.1 =
      (writeFinalCore isA (slowCore isA ⟨0, 0⟩ x).2).2 := by
  rcases hshape : x with _ | ⟨b0, x0⟩
  · exact ⟨rfl, rfl⟩
  · rw [← hshape]
    have hne : x ≠ [] := by rw [hshape]; simp
    have hwrite : packedWrite isA o ⟨0, 0⟩ p x =
        (let f := writeFast isA o p x
         let t := writeTail isA o ⟨0, 0⟩ f.2.1 f.2.2
         let z := writeFinal isA o t.2.1 t.2.2
         ([] ++ f.1 ++ t.1 ++ z.1, z.2.1, z.2.2)) := by
      rw [hshape]
      rw [show packedWrite isA o ⟨0, 0⟩ p (b0 :: x0) =
          (let h := writeHead isA o ⟨0, 0⟩ p (b0 :: x0)
           let f := writeFast isA o h.2.2.1 h.2.2.2
           let t := writeTail isA o h.2.1 f.2.1 f.2.2
           let z := writeFinal isA o t.2.1 t.2.2
           (h.1 ++ f.1 ++ t.1 ++ z.1, z.2.1, z.2.2)) from rfl]
      rw [writeHead_zeroCount isA o p ⟨0, 0⟩ rfl (b0 :: x0)]
    rw [hwrite]
    obtain ⟨triples, rem, hsplit, hrem, hlen, herasef, hstatef⟩ :=
      writeFast_erase isA o hOK x.length x p (le_refl _) hx
    obtain ⟨heraset, hstatet⟩ :=
      writeTail_erase isA o hOK (writeFast isA o p x).2.2 ⟨0, 0⟩ (writeFast isA o p x).2.1
    obtain ⟨herasez, hstatez⟩ :=
      writeFinal_erase isA o hOK (writeTail isA o ⟨0, 0⟩ (writeFast isA o p x).2.1
        (writeFast isA o p x).2.2).2.1
        (writeTail isA o ⟨0, 0⟩ (writeFast isA o p x).2.1 (writeFast isA o p x).2.2).2.2
    have hslow : slowCore isA ⟨0, 0⟩ x =
        ((slowCore isA ⟨0, 0⟩ triples).1 ++ (slowCore isA ⟨0, 0⟩ rem).1,
         (slowCore isA ⟨0, 0⟩ rem).2) := by
      rw [hsplit, slowCore_append, hstatef]
    rw [← hrem] at hslow
    constructor
    · simp only [erasePads, List.filter_append] at herasef heraset herasez ⊢
      rw [herasef, heraset, herasez, hstatet, hslow]
      simp
    · simp only []
      rw [hstatez, hstatet, hslow]

theorem packedReadStep_group (isA : Bool) (st : PackedRState) (g : Nat) (hg : g < 64) :
    packedReadStep isA st (encodeGroup isA g) =
      if 8 ≤ st.readBits + 6 then
        ([(st.readBitBuf * 64 + g) % 2 ^ 64 / 2 ^ (st.readBits + 6 - 8) % 256],
         ⟨(st.readBitBuf * 64 + g) % 2 ^ 64, st.readBits + 6 - 8⟩)
      else ([], ⟨(st.readBitBuf * 64 + g) % 2 ^ 64, st.readBits + 6⟩) := by
  have hnp : isPaddingByte isA (encodeGroup isA g) = false := encodeGroup_notPad isA g hg
  have hdec : decodeGroupByte isA (encodeGroup isA g) = g :=
    decodeGroupByte_encodeGroup isA g hg
  unfold packedReadStep
  rw [hdec]
  simp [hnp]

theorem packedReadStep_marker (isA : Bool) (st : PackedRState) :
    packedReadStep isA st (padMarker isA) = ([], ⟨0, 0⟩) := by
  unfold packedReadStep
  rw [if_pos (padMarker_isPad isA), if_pos rfl]

theorem packedReadList_one (isA : Bool) (st : PackedRState) (a : Nat) :
    packedReadList isA st [a] =
      ((packedReadStep isA st a).1, (packedReadStep isA st a).2) := by
  rw [packedReadList, packedReadList]
  simp

theorem packedReadList_two (isA : Bool) (st : PackedRState) (a b : Nat) :
    packedReadList isA st [a, b] =
      ((packedReadStep isA st a).1 ++
         (packedReadStep isA (packedReadStep isA st a).2 b).1,
       (packedReadStep isA (packedReadStep isA st a).2 b).2) := by
  rw [packedReadList, packedReadList, packedReadList]
  simp

theorem pushByteCore_sim (isA : Bool) (q c : Nat) (w : PackedWState)
    (st : PackedRState) (hrel : WRel q c w st) (b : Nat) (hb : b < 256) :
    ∃ q', WRel q' (cAfter c 1) (pushByteCore isA w b).2
        ((packedReadList isA st (pushByteCore isA w b).1).2) ∧
      (packedReadList isA st (pushByteCore isA w b).1).1 ++
          pendingList (cAfter c 1) q' =
        pendingList c q ++ [b] := by
  obtain ⟨hc, hq, hq0, hbuf, hcnt, hrb, hrbuf⟩ := hrel
  obtain ⟨wb, wc⟩ := w
  obtain ⟨rb, rc⟩ := st
  simp only at hbuf hcnt hrb hrbuf
  rcases hc with rfl | rfl | rfl
  · -- c = 0: the pushed byte is split 6 writer-side bits emitted + 2 kept
    subst hcnt
    have hwb : wb = 0 := by omega
    subst hwb
    have hrc : rc = 0 := by omega
    subst hrc
    rw [pushByteCore_cnt0 isA b hb, packedReadList_one,
      packedReadStep_group isA _ (b / 4) (by omega)]
    rw [if_neg (by norm_num)]
    rw [show cAfter 0 1 = 2 from rfl]
    refine ⟨b, ?_, ?_⟩
    · refine ⟨Or.inr (Or.inl rfl), hb, by omega, ?_, rfl, rfl, ?_⟩
      · show b % 4 = b % 2 ^ 2
        norm_num
      · show (rb * 64 + b / 4) % 2 ^ 64 % 2 ^ ((8 - 2) % 8) = b / 2 ^ 2
        norm_num
        omega
    · show ([] : List Nat) ++ pendingList 2 b = pendingList 0 q ++ [b]
      rw [hq0 rfl]
      simp [pendingList]
  · -- c = 2: the pending byte q is completed, b is split 4 + 4
    subst hcnt
    have hwb : wb = q % 4 := by omega
    subst hwb
    have hrc : rc = 6 := by omega
    subst hrc
    have hrbuf' : rb % 64 = q / 4 := by
      rw [show ((8:Nat) - 2) % 8 = 6 from rfl, show (2:Nat) ^ 6 = 64 from rfl,
        show (2:Nat) ^ 2 = 4 from rfl] at hrbuf
      exact hrbuf
    rw [pushByteCore_cnt2 isA (q % 4) b (by omega) hb, packedReadList_one,
      packedReadStep_group isA _ (q % 4 * 16 + b / 16) (by omega)]
    rw [if_pos (by norm_num)]
    rw [show cAfter 2 1 = 4 from rfl]
    refine ⟨b, ?_, ?_⟩
    · refine ⟨Or.inr (Or.inr rfl), hb, by omega, ?_, rfl, rfl, ?_⟩
      · show b % 16 = b % 2 ^ 4
        norm_num
      · show (rb * 64 + (q % 4 * 16 + b / 16)) % 2 ^ 64 % 2 ^ ((8 - 4) % 8) = b / 2 ^ 4
        norm_num
        omega
    · show [(rb * 64 + (q % 4 * 16 + b / 16)) % 2 ^ 64 / 2 ^ (6 + 6 - 8) % 256] ++
          pendingList 4 b = pendingList 2 q ++ [b]
      have hout : (rb * 64 + (q % 4 * 16 + b / 16)) % 2 ^ 64 / 2 ^ (6 + 6 - 8) % 256 = q := by
        norm_num
        omega
      rw [hout]
      simp [pendingList]
  · -- c = 4: the pending byte q is completed and so is b itself
    subst hcnt
    have hwb : wb = q % 16 := by omega
    subst hwb
    have hrc : rc = 4 := by omega
    subst hrc
    have hrbuf' : rb % 16 = q / 16 := by
      rw [show ((8:Nat) - 4) % 8 = 4 from rfl, show (2:Nat) ^ 4 = 16 from rfl] at hrbuf
      exact hrbuf
    rw [pushByteCore_cnt4 isA (q % 16) b (by omega) hb, packedReadList_two,
      packedReadStep_group isA _ (q % 16 * 4 + b / 64) (by omega)]
    rw [if_pos (by norm_num)]
    rw [packedReadStep_group isA _ (b % 64) (by omega)]
    rw [if_pos (by norm_num)]
    rw [show cAfter 4 1 = 0 from rfl]
    refine ⟨0, ?_, ?_⟩
    · refine ⟨Or.inl rfl, by omega, fun _ => rfl, ?_, ?_, ?_, ?_⟩
      · show (0 : Nat) = 0 % 2 ^ 0
        norm_num
      · show (0 : Nat) = 0
        rfl
      · show (4 + 6 - 8 + 6 - 8 : Nat) = (8 - 0) % 8
        rfl
      · show ((rb * 64 + (q % 16 * 4 + b / 64)) % 2 ^ 64 * 64 + b % 64) % 2 ^ 64 %
            2 ^ ((8 - 0) % 8) = 0 / 2 ^ 0
        norm_num [Nat.mod_one]
    · show ([(rb * 64 + (q % 16 * 4 + b / 64)) % 2 ^ 64 / 2 ^ (4 + 6 - 8) % 256] ++
          [((rb * 64 + (q % 16 * 4 + b / 64)) % 2 ^ 64 * 64 + b % 64) % 2 ^ 64 /
            2 ^ (4 + 6 - 8 + 6 - 8) % 256]) ++ pendingList 0 0 = pendingList 4 q ++ [b]
      have hq1 : (rb * 64 + (q % 16 * 4 + b / 64)) % 2 ^ 64 / 2 ^ (4 + 6 - 8) % 256 = q := by
        norm_num
        omega
      have hb1 : ((rb * 64 + (q % 16 * 4 + b / 64)) % 2 ^ 64 * 64 + b % 64) % 2 ^ 64 /
          2 ^ (4 + 6 - 8 + 6 - 8) % 256 = b := by
        norm_num
        omega
      rw [hq1, hb1]
      simp [pendingList]

theorem cAfter_one_then (c n : Nat) : cAfter (cAfter c 1) n = cAfter c (n + 1) := by
  unfold cAfter
  omega

theorem slowCore_sim (isA : Bool) :
    ∀ (x : List Nat) (q c : Nat) (w : PackedWState) (st : PackedRState),
      WRel q c w st → ByteList x →
      ∃ q', WRel q' (cAfter c x.length) (slowCore isA w x).2
          (packedReadList isA st (slowCore isA w x).1).2 ∧
        (packedReadList isA st (slowCore isA w x).1).1 ++
            pendingList (cAfter c x.length) q' =
          pendingList c q ++ x := by
  intro x
  induction x with
  | nil =>
    intro q c w st hrel _
    have hc := hrel.1
    have h0 : cAfter c 0 = c := by unfold cAfter; omega
    rw [show slowCore isA w [] = ([], w) from rfl,
      show packedReadList isA st [] = ([], st) from rfl]
    exact ⟨q, by rw [show ([] : List Nat).length = 0 from rfl, h0]; exact hrel,
      by rw [show ([] : List Nat).length = 0 from rfl, h0]; simp⟩
  | cons b rest ih =>
    intro q c w st hrel hx
    have hb : b < 256 := hx b (by simp)
    have hrest : ByteList rest := fun y hy => hx y (by simp [hy])
    obtain ⟨q1, hrel1, hdec1⟩ := pushByteCore_sim isA q c w st hrel b hb
    obtain ⟨q', hrel', hdec'⟩ := ih q1 (cAfter c 1) (pushByteCore isA w b).2
      (packedReadList isA st (pushByteCore isA w b).1).2 hrel1 hrest
    have hsplit : slowCore isA w (b :: rest) =
        ((pushByteCore isA w b).1 ++ (slowCore isA (pushByteCore isA w b).2 rest).1,
         (slowCore isA (pushByteCore isA w b).2 rest).2) := rfl
    rw [hsplit, packedReadList_append,
      show (b :: rest).length = rest.length + 1 from rfl, ← cAfter_one_then]
    refine ⟨q', hrel', ?_⟩
    rw [List.append_assoc, hdec', ← List.append_assoc, hdec1]
    simp

theorem finalCore_sim (isA : Bool) (q c : Nat) (w : PackedWState) (st : PackedRState)
    (hrel : WRel q c w st) :
    (packedReadList isA st (writeFinalCore isA w).1).1 = pendingList c q ∧
    (packedReadList isA st (writeFinalCore isA w).1).2.readBits = 0 ∧
    (writeFinalCore isA w).2 = ⟨0, 0⟩ := by
  obtain ⟨hc, hq, hq0, hbuf, hcnt, hrb, hrbuf⟩ := hrel
  obtain ⟨wb, wc⟩ := w
  obtain ⟨rb, rc⟩ := st
  simp only at hbuf hcnt hrb hrbuf
  rcases hc with rfl | rfl | rfl
  · -- c = 0: no residue, writer untouched, reader consumed everything
    have hq' : q = 0 := hq0 rfl
    subst hq'
    subst hcnt
    subst hbuf
    refine ⟨?_, ?_, ?_⟩
    · rw [show writeFinalCore isA ⟨0 % 2 ^ 0, 0⟩ = ([], ⟨0 % 2 ^ 0, 0⟩) from rfl,
        show packedReadList isA ⟨rb, rc⟩ [] = ([], ⟨rb, rc⟩) from rfl]
      simp [pendingList]
    · rw [show writeFinalCore isA ⟨0 % 2 ^ 0, 0⟩ = ([], ⟨0 % 2 ^ 0, 0⟩) from rfl,
        show packedReadList isA ⟨rb, rc⟩ [] = ([], ⟨rb, rc⟩) from rfl]
      show rc = 0
      omega
    · show (⟨0 % 2 ^ 0, 0⟩ : PackedWState) = ⟨0, 0⟩
      norm_num
  · -- c = 2: one final group carrying the 2 residue bits, then the marker
    subst hcnt
    subst hbuf
    have hrc : rc = 6 := by omega
    subst hrc
    have hrbuf' : rb % 64 = q / 4 := by
      rw [show ((8:Nat) - 2) % 8 = 6 from rfl, show (2:Nat) ^ 6 = 64 from rfl,
        show (2:Nat) ^ 2 = 4 from rfl] at hrbuf
      exact hrbuf
    rw [show writeFinalCore isA ⟨q % 2 ^ 2, 2⟩ =
        ([encodeGroup isA (q % 2 ^ 2 * 2 ^ (6 - 2) % 256 % 64), padMarker isA],
         (⟨0, 0⟩ : PackedWState)) from rfl]
    have hg2 : q % 2 ^ 2 * 2 ^ (6 - 2) % 256 % 64 = q % 4 * 16 := by omega
    rw [hg2, packedReadList_two, packedReadStep_group isA _ (q % 4 * 16) (by omega)]
    rw [if_pos (by norm_num)]
    rw [packedReadStep_marker]
    refine ⟨?_, rfl, rfl⟩
    show [(rb * 64 + q % 4 * 16) % 2 ^ 64 / 2 ^ (6 + 6 - 8) % 256] ++ [] =
      pendingList 2 q
    have hval : (rb * 64 + q % 4 * 16) % 2 ^ 64 / 2 ^ (6 + 6 - 8) % 256 = q := by
      norm_num
      omega
    rw [hval]
    simp [pendingList]
  · -- c = 4: one final group carrying the 4 residue bits, then the marker
    subst hcnt
    subst hbuf
    have hrc : rc = 4 := by omega
    subst hrc
    have hrbuf' : rb % 16 = q / 16 := by
      rw [show ((8:Nat) - 4) % 8 = 4 from rfl, show (2:Nat) ^ 4 = 16 from rfl] at hrbuf
      exact hrbuf
    rw [show writeFinalCore isA ⟨q % 2 ^ 4, 4⟩ =
        ([encodeGroup isA (q % 2 ^ 4 * 2 ^ (6 - 4) % 256 % 64), padMarker isA],
         (⟨0, 0⟩ : PackedWState)) from rfl]
    have hg4 : q % 2 ^ 4 * 2 ^ (6 - 4) % 256 % 64 = q % 16 * 4 := by omega
    rw [hg4, packedReadList_two, packedReadStep_group isA _ (q % 16 * 4) (by omega)]
    rw [if_pos (by norm_num)]
    rw [packedReadStep_marker]
    refine ⟨?_, rfl, rfl⟩
    show [(rb * 64 + q % 16 * 4) % 2 ^ 64 / 2 ^ (4 + 6 - 8) % 256] ++ [] =
      pendingList 4 q
    have hval : (rb * 64 + q % 16 * 4) % 2 ^ 64 / 2 ^ (4 + 6 - 8) % 256 = q := by
      norm_num
      omega
    rw [hval]
    simp [pendingList]

theorem packedWrite_roundtrip (isA : Bool) (o : PadOracle) (hOK : PadOracleOK isA o)
    (p : PadState) (x : List Nat) (hx : ByteList x) (st : PackedRState)
    (hst : st.readBits = 0) :
    (packedReadList isA st (packedWrite isA o ⟨0, 0⟩ p x).1).1 = x ∧
    (packedReadList isA st (packedWrite isA o ⟨0, 0⟩ p x).1).2.readBits = 0 ∧
    (packedWrite isA o ⟨0, 0⟩ p x).2.1 = ⟨0, 0⟩ := by
  obtain ⟨herase, hstate⟩ := packedWrite_erase isA o hOK p x hx
  have hread := (packedReadList_erase isA (packedWrite isA o ⟨0, 0⟩ p x).1 st).symm
  rw [herase] at hread
  rw [hread, packedReadList_append]
  have hrel0 : WRel 0 0 ⟨0, 0⟩ st := by
    refine ⟨Or.inl rfl, by omega, fun _ => rfl, ?_, rfl, ?_, ?_⟩
    · show (0 : Nat) = 0 % 2 ^ 0
      norm_num
    · omega
    · show st.readBitBuf % 2 ^ ((8 - 0) % 8) = 0 / 2 ^ 0
      norm_num [Nat.mod_one]
  obtain ⟨q', hrelq, hdec⟩ := slowCore_sim isA x 0 0 ⟨0, 0⟩ st hrel0 hx
  obtain ⟨hf1, hf2, hf3⟩ := finalCore_sim isA q' (cAfter 0 x.length)
    (slowCore isA ⟨0, 0⟩ x).2 (packedReadList isA st (slowCore isA ⟨0, 0⟩ x).1).2 hrelq
  refine ⟨?_, ?_, ?_⟩
  · rw [hf1, hdec]
    simp [pendingList]
  · exact hf2
  · rw [hstate, hf3]

theorem packedWriteAll_roundtrip (isA : Bool) (o : PadOracle) (hOK : PadOracleOK isA o) :
    ∀ (xs : List (List Nat)), (∀ x ∈ xs, ByteList x) →
      ∀ (p : PadState) (st : PackedRState), st.readBits = 0 →
      (packedReadList isA st (packedWriteAll isA o ⟨0, 0⟩ p xs).1).1 = xs.flatten ∧
      (packedReadList isA st (packedWriteAll isA o ⟨0, 0⟩ p xs).1).2.readBits = 0 ∧
      (packedWriteAll isA o ⟨0, 0⟩ p xs).2.1 = ⟨0, 0⟩ := by
  intro xs
  induction xs with
  | nil =>
    intro _ p st hst
    exact ⟨rfl, hst, rfl⟩
  | cons x xs ih =>
    intro hxs p st hst
    have hx : ByteList x := hxs x (by simp)
    have hxs' : ∀ y ∈ xs, ByteList y := fun y hy => hxs y (by simp [hy])
    obtain ⟨hr1, hr2, hr3⟩ := packedWrite_roundtrip isA o hOK p x hx st hst
    have hsplit : packedWriteAll isA o ⟨0, 0⟩ p (x :: xs) =
        ((packedWrite isA o ⟨0, 0⟩ p x).1 ++
           (packedWriteAll isA o (packedWrite isA o ⟨0, 0⟩ p x).2.1
              (packedWrite isA o ⟨0, 0⟩ p x).2.2 xs).1,
         (packedWriteAll isA o (packedWrite isA o ⟨0, 0⟩ p x).2.1
            (packedWrite isA o ⟨0, 0⟩ p x).2.2 xs).2.1,
         (packedWriteAll isA o (packedWrite isA o ⟨0, 0⟩ p x).2.1
            (packedWrite isA o ⟨0, 0⟩ p x).2.2 xs).2.2) := rfl
    rw [hsplit, hr3, packedReadList_append]
    obtain ⟨hi1, hi2, hi3⟩ := ih hxs' (packedWrite isA o ⟨0, 0⟩ p x).2.2
      (packedReadList isA st (packedWrite isA o ⟨0, 0⟩ p x).1).2 hr2
    refine ⟨?_, hi2, hi3⟩
    rw [hr1, hi1]
    simp

theorem packedFlush_empty (isA : Bool) (o : PadOracle) (hOK : PadOracleOK isA o)
    (p : PadState) (st : PackedRState) :
    packedReadList isA st (packedFlush isA o ⟨0, 0⟩ p).1 = ([], st) ∧
    (packedFlush isA o ⟨0, 0⟩ p).2.1 = ⟨0, 0⟩ := by
  by_cases hcd : p.countdown ≤ 5
  · have hflush : packedFlush isA o ⟨0, 0⟩ p =
        ([o.bytes p.idx], ⟨0, 0⟩, ⟨(o.resets p.idx : Int), p.idx + 1⟩) := by
      unfold packedFlush
      simp [hcd]
    rw [hflush]
    refine ⟨?_, rfl⟩
    rw [packedReadList_one]
    have hstep : packedReadStep isA st (o.bytes p.idx) = ([], st) := by
      unfold packedReadStep
      rw [if_pos (hOK p.idx).1, if_neg (hOK p.idx).2]
    rw [hstep]
  · have hflush : packedFlush isA o ⟨0, 0⟩ p = ([], ⟨0, 0⟩, p) := by
      unfold packedFlush
      simp [hcd]
    rw [hflush]
    exact ⟨rfl, rfl⟩

/-- C1: the packed 6-bit codec round-trips.  For every sequence of `Write`
calls with byte payloads `xs` on a fresh `PackedConn`, followed by `Flush`,
a fresh packed reader consuming the produced wire bytes decodes exactly the
concatenation of the payloads — in either table mode (`isA`), from any
initial padding countdown, and for every padding schedule (the oracle's
pool draws and countdown resets are arbitrary, subject only to pool bytes
being non-marker padding bytes, which `NewPackedConn` enforces by filtering
the marker out of `table.PaddingPool`). -/
theorem sudoku_C1 (isA : Bool) (o : PadOracle) (hOK : PadOracleOK isA o)
    (p : PadState) (xs : List (List Nat)) (hxs : ∀ x ∈ xs, ByteList x) :
    (packedReadList isA ⟨0, 0⟩
        ((packedWriteAll isA o ⟨0, 0⟩ p xs).1 ++
          (packedFlush isA o (packedWriteAll isA o ⟨0, 0⟩ p xs).2.1
            (packedWriteAll isA o ⟨0, 0⟩ p xs).2.2).1)).1 = xs.flatten := by
  obtain ⟨h1, h2, h3⟩ := packedWriteAll_roundtrip isA o hOK xs hxs p ⟨0, 0⟩ rfl
  rw [packedReadList_append, h1, h3]
  obtain ⟨hf1, _⟩ := packedFlush_empty isA o hOK (packedWriteAll isA o ⟨0, 0⟩ p xs).2.2
    (packedReadList isA ⟨0, 0⟩ (packedWriteAll isA o ⟨0, 0⟩ p xs).1).2
  rw [hf1]
  simp

/-- Witness for `sudoku_C1`: the writes `[1, 2, 3, 4]` then `[5]` in ASCII
mode under the constant schedule (pool byte `0x20`, reset 1, countdown 3)
decode back to `[1, 2, 3, 4, 5]`. -/
theorem sudoku_C1_witness :
    (packedReadList true ⟨0, 0⟩
        ((packedWriteAll true ⟨fun _ => 0x20, fun _ => 1⟩ ⟨0, 0⟩ ⟨3, 0⟩
            [[1, 2, 3, 4], [5]]).1 ++
          (packedFlush true ⟨fun _ => 0x20, fun _ => 1⟩
            (packedWriteAll true ⟨fun _ => 0x20, fun _ => 1⟩ ⟨0, 0⟩ ⟨3, 0⟩
              [[1, 2, 3, 4], [5]]).2.1
            (packedWriteAll true ⟨fun _ => 0x20, fun _ => 1⟩ ⟨0, 0⟩ ⟨3, 0⟩
              [[1, 2, 3, 4], [5]]).2.2).1)).1 = [1, 2, 3, 4, 5] :=
  sudoku_C1 true ⟨fun _ => 0x20, fun _ => 1⟩
    (fun i => ⟨(by decide : isPaddingByte true 0x20 = true),
               (by decide : (0x20 : Nat) ≠ padMarker true)⟩)
    ⟨3, 0⟩ [[1, 2, 3, 4], [5]] (by decide)

/-- C10: after a `Write` from the empty accumulator (which `NewPackedConn`
establishes and, by the first conjunct, every `Write` re-establishes), the
writer's 6-bit accumulator is empty again; the call's own output is
independently decodable by a packed reader without an intervening `Flush`;
when the payload length leaves a sub-byte remainder (`len % 3 ≠ 0`) the
residue is emitted within that same call as one final left-zero-padded
6-bit group followed by the flush marker, which is `0x3F` in ASCII mode and
`0x80` in entropy mode; and `Flush` never finds residual bits — from the
empty accumulator it emits only padding-class bytes. -/
theorem sudoku_C10 (isA : Bool) (o : PadOracle) (hOK : PadOracleOK isA o)
    (p : PadState) (x : List Nat) (hx : ByteList x) (st : PackedRState)
    (hst : st.readBits = 0) :
    (packedWrite isA o ⟨0, 0⟩ p x).2.1.bitCount = 0 ∧
    (packedReadList isA st (packedWrite isA o ⟨0, 0⟩ p x).1).1 = x ∧
    (x.length % 3 ≠ 0 → ∃ g, g < 64 ∧
      erasePads isA (packedWrite isA o ⟨0, 0⟩ p x).1 =
        (slowCore isA ⟨0, 0⟩ x).1 ++ [encodeGroup isA g, padMarker isA]) ∧
    padMarker true = 0x3F ∧ padMarker false = 0x80 ∧
    (∀ b ∈ (packedFlush isA o ⟨0, 0⟩ p).1, isPaddingByte isA b = true) := by
  obtain ⟨h1, h2, h3⟩ := packedWrite_roundtrip isA o hOK p x hx st hst
  obtain ⟨herase, hstate⟩ := packedWrite_erase isA o hOK p x hx
  have hrel0 : WRel 0 0 ⟨0, 0⟩ st := by
    refine ⟨Or.inl rfl, by omega, fun _ => rfl, ?_, rfl, ?_, ?_⟩
    · show (0 : Nat) = 0 % 2 ^ 0
      norm_num
    · omega
    · show st.readBitBuf % 2 ^ ((8 - 0) % 8) = 0 / 2 ^ 0
      norm_num [Nat.mod_one]
  obtain ⟨q', hrelq, hdec⟩ := slowCore_sim isA x 0 0 ⟨0, 0⟩ st hrel0 hx
  have hcnt : (slowCore isA ⟨0, 0⟩ x).2.bitCount = cAfter 0 x.length :=
    hrelq.2.2.2.2.1
  refine ⟨?_, h1, ?_, by decide, by decide, ?_⟩
  · rw [h3]
  · intro hlen
    have hpos : 0 < (slowCore isA ⟨0, 0⟩ x).2.bitCount := by
      rw [hcnt]
      unfold cAfter
      omega
    refine ⟨(slowCore isA ⟨0, 0⟩ x).2.bitBuf *
        2 ^ (6 - (slowCore isA ⟨0, 0⟩ x).2.bitCount) % 256 % 64, by omega, ?_⟩
    rw [herase]
    congr 1
    unfold writeFinalCore
    rw [if_pos hpos]
  · intro b hb
    by_cases hcd : p.countdown ≤ 5
    · have hflush : packedFlush isA o ⟨0, 0⟩ p =
          ([o.bytes p.idx], ⟨0, 0⟩, ⟨(o.resets p.idx : Int), p.idx + 1⟩) := by
        unfold packedFlush
        simp [hcd]
      rw [hflush] at hb
      simp at hb
      rw [hb]
      exact (hOK p.idx).1
    · have hflush : packedFlush isA o ⟨0, 0⟩ p = ([], ⟨0, 0⟩, p) := by
        unfold packedFlush
        simp [hcd]
      rw [hflush] at hb
      simp at hb

/-- Witness for `sudoku_C10`: a two-byte `Write` (`[7, 8]`, remainder 2) in
ASCII mode under the constant schedule (pool byte `0x20`, reset 1,
countdown 3), read back from the fresh reader state. -/
theorem sudoku_C10_witness :
    (packedWrite true ⟨fun _ => 0x20, fun _ => 1⟩ ⟨0, 0⟩ ⟨3, 0⟩
        [7, 8]).2.1.bitCount = 0 ∧
    (packedReadList true ⟨0, 0⟩
        (packedWrite true ⟨fun _ => 0x20, fun _ => 1⟩ ⟨0, 0⟩ ⟨3, 0⟩
          [7, 8]).1).1 = [7, 8] ∧
    (([7, 8] : List Nat).length % 3 ≠ 0 → ∃ g, g < 64 ∧
      erasePads true (packedWrite true ⟨fun _ => 0x20, fun _ => 1⟩ ⟨0, 0⟩ ⟨3, 0⟩
          [7, 8]).1 =
        (slowCore true ⟨0, 0⟩ [7, 8]).1 ++ [encodeGroup true g, padMarker true]) ∧
    padMarker true = 0x3F ∧ padMarker false = 0x80 ∧
    (∀ b ∈ (packedFlush true ⟨fun _ => 0x20, fun _ => 1⟩ ⟨0, 0⟩ ⟨3, 0⟩).1,
      isPaddingByte true b = true) :=
  sudoku_C10 true ⟨fun _ => 0x20, fun _ => 1⟩
    (fun i => ⟨(by decide : isPaddingByte true 0x20 = true),
               (by decide : (0x20 : Nat) ≠ padMarker true)⟩)
    ⟨3, 0⟩ [7, 8] (by decide) ⟨0, 0⟩ rfl
